import Mathlib

/-!
Verification of the moderation engine's core against its specification.

This file gives a shallow embedding, in Lean 4, of the content-moderation
pipeline implemented in the Go repository `moderation`:

* byte-level hashing primitives (`internal/pkg/hash`): xxHash64 (`FastHash`),
  MurmurHash3 x64 Sum64 (`Hash`), and SHA-256 (`HashTextSha256`);
* the Redis-backed Bloom filter (`internal/pkg/bloom`);
* text normalization and the Aho-Corasick matcher (`internal/pkg/filter`);
* the text moderation pipeline (`internal/pkg/moderator/text.go`);
* the image moderation pipeline (`internal/pkg/moderator/image.go`);
* the top-level verdict synthesis (`internal/biz/badimage.go`).

Modelling conventions:
* machine words are `Nat` reduced modulo `2 ^ w` at each operation where Go
  overflows; bytes are `Nat` values below 256;
* `float64` scores are modelled as `ℚ` (no property proved here depends on
  floating-point rounding: the code only compares and maximizes scores);
* each external collaborator (Redis, SQL repository, gRPC classifier, HTTP
  image fetch) is an explicit oracle or piece of threaded state;
* Unicode tables consumed by the normalizer (`golang.org/x/text`) are a
  parameter (`UnicodeData`); theorems that need facts about the real tables
  take them as hypotheses that the real tables satisfy.
-/

set_option maxRecDepth 8000

namespace Moderation

/-! ## Bytes, hex, UTF-8 -/

/-- Reduce to a 64-bit machine word, as Go's `uint64` arithmetic does. -/
def w64 (x : Nat) : Nat := x % 18446744073709551616

/-- Reduce to a 32-bit machine word, as Go's `uint32` arithmetic does. -/
def w32 (x : Nat) : Nat := x % 4294967296

/-- Rotate a 64-bit word left by `r` bits (`bits.RotateLeft64`). -/
def rotl64 (x r : Nat) : Nat :=
  w64 ((x <<< r) ||| (x >>> (64 - r)))

/-- Rotate a 32-bit word right by `r` bits (SHA-256's `ROTR`). -/
def rotr32 (x r : Nat) : Nat :=
  w32 ((x >>> r) ||| (x <<< (32 - r)))

/-- Little-endian value of a byte list (`binary.LittleEndian.Uint64` etc.). -/
def leVal (bs : List Nat) : Nat :=
  bs.foldr (fun b acc => b + 256 * acc) 0

/-- Big-endian bytes of a 64-bit word (`binary.BigEndian.PutUint64`). -/
def be8 (x : Nat) : List Nat :=
  (List.range 8).map fun i => (x >>> (8 * (7 - i))) % 256

/-- Little-endian bytes of a 64-bit word (`binary.LittleEndian.PutUint64`). -/
def le8 (x : Nat) : List Nat :=
  (List.range 8).map fun i => (x >>> (8 * i)) % 256

/-- Big-endian bytes of a 32-bit word. -/
def be4 (x : Nat) : List Nat :=
  (List.range 4).map fun i => (x >>> (8 * (3 - i))) % 256

/-- Lowercase hex digit for a value below 16 (`encoding/hex` alphabet). -/
def hexDigit (n : Nat) : Char :=
  if n < 10 then Char.ofNat (48 + n) else Char.ofNat (87 + n)

/-- Lowercase hex encoding of a byte list (`hex.EncodeToString`). -/
def hexEncode (bs : List Nat) : String :=
  String.mk ((bs.map fun b => [hexDigit (b / 16), hexDigit (b % 16)]).flatten)

/-- UTF-8 encoding of one code point (Go strings are UTF-8 byte sequences). -/
def utf8Char (c : Char) : List Nat :=
  let n := c.toNat
  if n < 128 then [n]
  else if n < 2048 then [192 + n / 64, 128 + n % 64]
  else if n < 65536 then [224 + n / 4096, 128 + (n / 64) % 64, 128 + n % 64]
  else [240 + n / 262144, 128 + (n / 4096) % 64, 128 + (n / 64) % 64, 128 + n % 64]

/-- The UTF-8 bytes of a string, which is what Go hashes and stores. -/
def strBytes (s : String) : List Nat :=
  (s.toList.map utf8Char).flatten

/-! ## xxHash64 (`github.com/cespare/xxhash/v2`, used by `hash.FastHash`) -/

def xxPrime1 : Nat := 11400714785074694791
def xxPrime2 : Nat := 14029467366897019727
def xxPrime3 : Nat := 1609587929392839161
def xxPrime4 : Nat := 9650029242287828579
def xxPrime5 : Nat := 2870177450012600261

/-- One xxHash64 accumulator round. -/
def xxRound (acc k : Nat) : Nat :=
  w64 (rotl64 (w64 (acc + w64 (k * xxPrime2))) 31 * xxPrime1)

/-- Merge one accumulator into the converged hash. -/
def xxMergeRound (h v : Nat) : Nat :=
  w64 (w64 ((h ^^^ xxRound 0 v)) * xxPrime1 + xxPrime4)

/-- Consume the 32-byte stripes, updating the four accumulators.  The Go
loop runs while at least 32 bytes remain, i.e. `length / 32` times; the
`i`-th iteration reads bytes `32*i ..< 32*i+32`. -/
def xxStripes (bs : List Nat) (v1 v2 v3 v4 : Nat) :
    (Nat × Nat × Nat × Nat) × List Nat :=
  let n := bs.length / 32
  let final := (List.range n).foldl
    (fun v i =>
      let c := (bs.drop (32 * i)).take 32
      (xxRound v.1 (leVal (c.take 8)),
       xxRound v.2.1 (leVal ((c.drop 8).take 8)),
       xxRound v.2.2.1 (leVal ((c.drop 16).take 8)),
       xxRound v.2.2.2 (leVal (c.drop 24))))
    (v1, v2, v3, v4)
  (final, bs.drop (32 * n))

/-- Consume trailing 8-byte words; the Go loop runs while at least 8 bytes
remain, i.e. `length / 8` times on the post-stripe remainder. -/
def xxTail8 (bs : List Nat) (h : Nat) : Nat × List Nat :=
  let n := bs.length / 8
  let final := (List.range n).foldl
    (fun acc i =>
      w64 (rotl64 (acc ^^^ xxRound 0 (leVal ((bs.drop (8 * i)).take 8))) 27 *
        xxPrime1 + xxPrime4))
    h
  (final, bs.drop (8 * n))

/-- Consume a trailing 4-byte word. -/
def xxTail4 (bs : List Nat) (h : Nat) : Nat × List Nat :=
  if 4 ≤ bs.length then
    (w64 (rotl64 (h ^^^ w64 (leVal (bs.take 4) * xxPrime1)) 23 * xxPrime2 + xxPrime3),
     bs.drop 4)
  else (h, bs)

/-- Consume trailing single bytes. -/
def xxTail1 (bs : List Nat) (h : Nat) : Nat :=
  match bs with
  | [] => h
  | b :: rest => xxTail1 rest (w64 (rotl64 (h ^^^ w64 (b * xxPrime5)) 11 * xxPrime1))

/-- Final avalanche. -/
def xxAvalanche (h : Nat) : Nat :=
  let h := w64 ((h ^^^ (h >>> 33)) * xxPrime2)
  let h := w64 ((h ^^^ (h >>> 29)) * xxPrime3)
  h ^^^ (h >>> 32)

/-- xxHash64 with seed 0 over a byte list (`xxhash.Sum64`). -/
def xxh64 (input : List Nat) : Nat :=
  let n := input.length
  let seeded :=
    if 32 ≤ n then
      let sr := xxStripes input (w64 (xxPrime1 + xxPrime2)) xxPrime2 0
        (w64 (18446744073709551616 - xxPrime1))
      let v := sr.1
      let h := w64 (rotl64 v.1 1 + rotl64 v.2.1 7 + rotl64 v.2.2.1 12 + rotl64 v.2.2.2 18)
      let h := xxMergeRound h v.1
      let h := xxMergeRound h v.2.1
      let h := xxMergeRound h v.2.2.1
      let h := xxMergeRound h v.2.2.2
      (h, sr.2)
    else (w64 xxPrime5, input)
  let h := w64 (seeded.1 + n)
  let t8 := xxTail8 seeded.2 h
  let t4 := xxTail4 t8.2 t8.1
  xxAvalanche (xxTail1 t4.2 t4.1)

/-! ## MurmurHash3 x64 (`github.com/spaolacci/murmur3`, used by `hash.Hash`) -/

def mmC1 : Nat := 9782798678568883157
def mmC2 : Nat := 5545529020109919103

/-- Final mixing function `fmix64`. -/
def mmFmix (k : Nat) : Nat :=
  let k := w64 ((k ^^^ (k >>> 33)) * 18397679294719823053)
  let k := w64 ((k ^^^ (k >>> 33)) * 14181476777654086739)
  k ^^^ (k >>> 33)

/-- Mix a `k1` lane value into `h1`. -/
def mmMixK1 (k1 : Nat) : Nat :=
  w64 (rotl64 (w64 (k1 * mmC1)) 31 * mmC2)

/-- Mix a `k2` lane value into `h2`. -/
def mmMixK2 (k2 : Nat) : Nat :=
  w64 (rotl64 (w64 (k2 * mmC2)) 33 * mmC1)

/-- Consume the 16-byte blocks of the x64-128 variant: `length / 16`
blocks, the `i`-th reading bytes `16*i ..< 16*i+16`. -/
def mmBlocks (bs : List Nat) (h1 h2 : Nat) : (Nat × Nat) × List Nat :=
  let n := bs.length / 16
  let final := (List.range n).foldl
    (fun h i =>
      let c := (bs.drop (16 * i)).take 16
      let k1 := leVal (c.take 8)
      let k2 := leVal (c.drop 8)
      let a := h.1 ^^^ mmMixK1 k1
      let a := w64 (w64 (rotl64 a 27 + h.2) * 5 + 1390208809)
      let b := h.2 ^^^ mmMixK2 k2
      let b := w64 (w64 (rotl64 b 31 + a) * 5 + 944331445)
      (a, b))
    (h1, h2)
  (final, bs.drop (16 * n))

/-- MurmurHash3 x64-128 with seed 0, returning `h1` (`murmur3.Sum64`). -/
def murmurSum64 (input : List Nat) : Nat :=
  let n := input.length
  let br := mmBlocks input 0 0
  let h1 := br.1.1
  let h2 := br.1.2
  let tail := br.2
  let t := tail.length
  let h2 := if 8 < t then h2 ^^^ mmMixK2 (leVal (tail.drop 8)) else h2
  let h1 := if 0 < t then h1 ^^^ mmMixK1 (leVal (tail.take 8)) else h1
  let h1 := h1 ^^^ n
  let h2 := h2 ^^^ n
  let h1 := w64 (h1 + h2)
  let h2 := w64 (h2 + h1)
  let h1 := mmFmix h1
  let h2 := mmFmix h2
  let h1 := w64 (h1 + h2)
  h1

/-! ## SHA-256 (`crypto/sha256`, used by `hash.HashTextSha256`) -/

def shaK : List Nat :=
  [1116352408, 1899447441, 3049323471, 3921009573, 961987163,
   1508970993, 2453635748, 2870763221, 3624381080, 310598401,
   607225278, 1426881987, 1925078388, 2162078206, 2614888103,
   3248222580, 3835390401, 4022224774, 264347078, 604807628,
   770255983, 1249150122, 1555081692, 1996064986, 2554220882,
   2821834349, 2952996808, 3210313671, 3336571891, 3584528711,
   113926993, 338241895, 666307205, 773529912, 1294757372,
   1396182291, 1695183700, 1986661051, 2177026350, 2456956037,
   2730485921, 2820302411, 3259730800, 3345764771, 3516065817,
   3600352804, 4094571909, 275423344, 430227734, 506948616,
   659060556, 883997877, 958139571, 1322822218, 1537002063,
   1747873779, 1955562222, 2024104815, 2227730452, 2361852424,
   2428436474, 2756734187, 3204031479, 3329325298]

def shaH0 : List Nat :=
  [1779033703, 3144134277, 1013904242, 2773480762,
   1359893119, 2600822924, 528734635, 1541459225]

/-- SHA-256 message padding: a `0x80` byte, zeros, then the bit length. -/
def shaPad (msg : List Nat) : List Nat :=
  let n := msg.length
  let k := (55 + 64 - n % 64) % 64
  msg ++ [128] ++ List.replicate k 0 ++ be8 (8 * n)

/-- Split into big-endian 32-bit words. -/
def shaWords (bs : List Nat) : List Nat :=
  match bs with
  | b0 :: b1 :: b2 :: b3 :: rest =>
      (((b0 * 256 + b1) * 256 + b2) * 256 + b3) :: shaWords rest
  | _ => []

/-- Extend 16 words to the 64-word message schedule. -/
def shaSchedule (ws : List Nat) : List Nat :=
  (List.range 48).foldl
    (fun w _ =>
      let m := w.length
      let w15 := w.getD (m - 15) 0
      let w2 := w.getD (m - 2) 0
      let s0 := (rotr32 w15 7) ^^^ (rotr32 w15 18) ^^^ (w15 >>> 3)
      let s1 := (rotr32 w2 17) ^^^ (rotr32 w2 19) ^^^ (w2 >>> 10)
      w ++ [w32 (w.getD (m - 16) 0 + s0 + w.getD (m - 7) 0 + s1)])
    ws

/-- Compress one 64-byte block into the running hash state. -/
def shaCompress (hs : List Nat) (block : List Nat) : List Nat :=
  let w := shaSchedule (shaWords block)
  let f := (List.range 64).foldl
    (fun st t =>
      match st with
      | (a, b, c, d, e, f, g, h) =>
        let s1 := (rotr32 e 6) ^^^ (rotr32 e 11) ^^^ (rotr32 e 25)
        let ch := (e &&& f) ^^^ ((4294967295 - e) &&& g)
        let t1 := w32 (h + s1 + ch + shaK.getD t 0 + w.getD t 0)
        let s0 := (rotr32 a 2) ^^^ (rotr32 a 13) ^^^ (rotr32 a 22)
        let mj := (a &&& b) ^^^ (a &&& c) ^^^ (b &&& c)
        let t2 := w32 (s0 + mj)
        (w32 (t1 + t2), a, b, c, w32 (d + t1), e, f, g))
    (hs.getD 0 0, hs.getD 1 0, hs.getD 2 0, hs.getD 3 0,
     hs.getD 4 0, hs.getD 5 0, hs.getD 6 0, hs.getD 7 0)
  match f with
  | (a, b, c, d, e, ff, g, h) =>
    [w32 (hs.getD 0 0 + a), w32 (hs.getD 1 0 + b), w32 (hs.getD 2 0 + c),
     w32 (hs.getD 3 0 + d), w32 (hs.getD 4 0 + e), w32 (hs.getD 5 0 + ff),
     w32 (hs.getD 6 0 + g), w32 (hs.getD 7 0 + h)]

/-- Fold the compression over the 64-byte blocks of the padded message
(whose length is an exact multiple of 64). -/
def shaBlocksGo (bs : List Nat) (hs : List Nat) : List Nat :=
  (List.range (bs.length / 64)).foldl
    (fun h i => shaCompress h ((bs.drop (64 * i)).take 64)) hs

/-- SHA-256 digest (32 bytes) of a byte list. -/
def sha256 (msg : List Nat) : List Nat :=
  ((shaBlocksGo (shaPad msg) shaH0).map be4).flatten

/-! ## The `hash` package (`internal/pkg/hash/hash.go`) -/

/-- Go source, hash.go lines 13-15: `Hash` is murmur3's 64-bit sum. -/
def hashHash (data : List Nat) : Nat := murmurSum64 data

/-- Go source, hash.go lines 17-20: SHA-256 of the string, hex encoded. -/
def hashTextSha256 (s : String) : String := hexEncode (sha256 (strBytes s))

/-- Go source, hash.go lines 22-27: `FastHash` is the 8 little-endian bytes
of the string's xxHash64 — not a SHA-256 digest. -/
def fastHash (s : String) : List Nat := le8 (xxh64 (strBytes s))

/-! ## Bloom filter (`internal/pkg/bloom`)

The bit array lives in Redis under one key.  The state of that key is
`Option (List Nat)`: `none` is an absent key (Redis `Nil`), `some bits` a
key whose set bit offsets are the members of `bits`.  The two Lua scripts
are embedded in the Go binary and their sources are not part of the
repository snapshot, so their evaluation is modelled from the spec. -/

/-- Errors of the bloom package: `ErrTooLargeOffset` (bloom.go line 15). -/
inductive BloomErr where
  | tooLargeOffset
  deriving Repr, DecidableEq

/-- State of the Redis key backing one bit set. -/
abbrev BitSetState : Type := Option (List Nat)

/-- Modelled from the spec: `get_script.lua` is missing from the snapshot;
per the spec, the atomic CHECK script returns Redis `Nil` (here `none`) when
the key is absent, else 1 if all requested bits are set and 0 otherwise. -/
def getScriptEval (st : BitSetState) (offsets : List Nat) : Option Nat :=
  match st with
  | none => none
  | some bits => some (if offsets.all fun o => decide (o ∈ bits) then 1 else 0)

/-- Modelled from the spec: `set_script.lua` is missing from the snapshot;
per the spec, the atomic SET script sets the requested bits, creating the
key when absent. -/
def setScriptEval (st : BitSetState) (offsets : List Nat) : BitSetState :=
  some (st.getD [] ++ offsets)

/-- Go source, redis_bit_set.go lines 28-38: validate offsets against the bit
length, failing with `ErrTooLargeOffset` on the first offset `≥ bits`.  (The
decimal string formatting of valid offsets round-trips and is elided.) -/
def buildOffsetArgs (bits : Nat) : List Nat → Except BloomErr (List Nat)
  | [] => .ok []
  | o :: rest =>
      if bits ≤ o then .error .tooLargeOffset
      else (buildOffsetArgs bits rest).map (o :: ·)

/-- Go source, redis_bit_set.go lines 41-60: check bits via the CHECK script;
`Nil` means the key is absent and reads as `false`. -/
def bitSetCheck (bits : Nat) (st : BitSetState) (offsets : List Nat) :
    Except BloomErr Bool :=
  match buildOffsetArgs bits offsets with
  | .error e => .error e
  | .ok args =>
      match getScriptEval st args with
      | none => .ok false
      | some r => .ok (r == 1)

/-- Go source, redis_bit_set.go lines 69-81: set bits via the SET script. -/
def bitSetSet (bits : Nat) (st : BitSetState) (offsets : List Nat) :
    Except BloomErr BitSetState :=
  match buildOffsetArgs bits offsets with
  | .error e => .error e
  | .ok args => .ok (setScriptEval st args)

/-- Go source, bloom.go lines 27-31: a Bloom filter's fixed parameters. -/
structure Filter where
  bits : Nat
  kHashFunctions : Nat

/-- Go source, bloom.go lines 43-50: the k bit locations of a datum, the
i-th being `murmur3.Sum64(data ++ [byte i]) mod bits`. -/
def getLocations (f : Filter) (data : List Nat) : List Nat :=
  (List.range f.kHashFunctions).map fun i => hashHash (data ++ [i % 256]) % f.bits

/-- Go source, bloom.go lines 53-56: `AddWithCtx` sets the k locations. -/
def addWithCtx (f : Filter) (st : BitSetState) (data : List Nat) :
    Except BloomErr BitSetState :=
  bitSetSet f.bits st (getLocations f data)

/-- Go source, bloom.go lines 64-71: `ExistsWithCtx` checks the k locations. -/
def existsWithCtx (f : Filter) (st : BitSetState) (data : List Nat) :
    Except BloomErr Bool :=
  bitSetCheck f.bits st (getLocations f data)

/-! ## Normalizer (`internal/pkg/filter/ahocorasick.go`, `NormalizeText`)

`NormalizeText` chains NFD decomposition, removal of combining marks
(category Mn), NFC recomposition, per-rune Unicode lowercasing, and a fixed
leet-speak substitution.  The Unicode tables live in `golang.org/x/text`
outside this repository; they enter the embedding as the `UnicodeData`
parameter below, and theorems assume only standard properties of them. -/

/-- The Unicode operations `NormalizeText` consumes from `golang.org/x/text`
and `unicode`: NFD decomposition, the Mn (nonspacing combining mark) class,
NFC recomposition, and simple lowercasing. -/
structure UnicodeData where
  nfd : List Char → List Char
  isMn : Char → Bool
  nfc : List Char → List Char
  lower : Char → Char

/-- Go source, ahocorasick.go lines 208-218: the fixed leet map.  The Go map
has distinct keys, so the map lookup is this if-chain. -/
def leetSub (c : Char) : Char :=
  if c = '0' then 'o'
  else if c = '1' then 'i'
  else if c = '3' then 'e'
  else if c = '4' then 'a'
  else if c = '5' then 's'
  else if c = '7' then 't'
  else if c = '8' then 'b'
  else if c = '@' then 'a'
  else if c = '$' then 's'
  else c

/-- Go source, ahocorasick.go lines 194-199: the chained transform
`NFD ∘ remove Mn ∘ NFC` applied to the text. -/
def normTransform (u : UnicodeData) (s : List Char) : List Char :=
  u.nfc ((u.nfd s).filter fun c => !u.isMn c)

/-- Go source, ahocorasick.go lines 192-230: `NormalizeText` — the chained
transform, then per-rune lowercasing, then the leet substitution. -/
def normalizeText (u : UnicodeData) (s : List Char) : List Char :=
  ((normTransform u s).map u.lower).map leetSub

/-- String-level wrapper of `normalizeText` (Go strings ↔ rune lists). -/
def normalizeTextS (u : UnicodeData) (s : String) : String :=
  String.mk (normalizeText u s.toList)

/-! ## Aho-Corasick matcher (`internal/pkg/filter/ahocorasick.go`)

The Go automaton is a pointer trie with fail links built by BFS
(lines 56-121) and traversed by `Search` (lines 124-158).  The embedding is
denotational: the node reached after reading a string is its longest suffix
that is a prefix of some normalized pattern (the trie states), the fail
chain of a node enumerates exactly its proper suffixes that are states in
decreasing length, and the output list merged along fail links at build
time (line 117) collects exactly the patterns whose nonempty normalized
word is a suffix of the state — plus, at the root only, patterns whose
normalized word is empty (they are placed on the root's own output and are
never merged into other nodes, since depth-1 fail links skip the merge). -/

/-- Go source, ahocorasick.go lines 20-25: pattern metadata. -/
structure PatternInfo where
  word : String
  category : String
  nsfwScore : ℚ
  deriving Repr, DecidableEq

/-- Go source, ahocorasick.go lines 12-18: one reported match.  `position`
is a Go `int` and may go negative, hence `ℤ`. -/
structure ACMatch where
  word : String
  position : ℤ
  category : String
  nsfwScore : ℚ
  deriving Repr, DecidableEq

/-- The normalized word of a pattern (ahocorasick.go line 75). -/
def normWord (u : UnicodeData) (p : PatternInfo) : List Char :=
  normalizeText u p.word.toList

/-- Whether `s` is a node of the trie built from patterns `P`: the root, or
a prefix of some normalized pattern (ahocorasick.go lines 73-86). -/
def isState (u : UnicodeData) (P : List PatternInfo) (s : List Char) : Bool :=
  s.isEmpty || P.any fun p => s.isPrefixOf (normWord u p)

/-- The longest suffix of `l` that is a trie node.  This is the node the
automaton rests on after reading `l`; following a fail link moves to the
next shorter suffix that is a node (ahocorasick.go lines 89-121). -/
def reach (u : UnicodeData) (P : List PatternInfo) : List Char → List Char
  | [] => []
  | c :: rest => if isState u P (c :: rest) then c :: rest else reach u P rest

/-- One `Search` step from node `s` on rune `c`: follow fail links until a
child on `c` exists, else return to the root (ahocorasick.go lines 133-143).
The node reached is the longest suffix of `s ++ [c]` that is a node. -/
def nextState (u : UnicodeData) (P : List PatternInfo) (s : List Char) (c : Char) :
    List Char :=
  reach u P (s ++ [c])

/-- For each suffix of `pre`, longest first, the patterns whose normalized
word equals it: the patterns whose nonempty normalized word occurs ending
at the last rune of `pre`, listed by decreasing occurrence length and, for
equal words, in pattern-list order. -/
def outputsAt (u : UnicodeData) (P : List PatternInfo) (pre : List Char) :
    List PatternInfo :=
  pre.tails.flatMap fun t =>
    if t.isEmpty then [] else P.filter fun p => normWord u p == t

/-- The output list of the node `s`: its own patterns followed by those
merged from the fail chain at build time (ahocorasick.go lines 84-85 and
117) — the fail chain walks the shorter node-suffixes of `s` in decreasing
length, and a non-node suffix contributes no patterns, so the merged list
is exactly `outputsAt u P s`.  The root is special: its own output (the
patterns whose normalized word is empty) is never merged into deeper nodes,
since the depth-1 fail links to the root skip the merge (line 112-113). -/
def outputsOf (u : UnicodeData) (P : List PatternInfo) (s : List Char) :
    List PatternInfo :=
  if s.isEmpty then P.filter fun p => (normWord u p).isEmpty
  else outputsAt u P s

/-- Go source, ahocorasick.go lines 146-152: the match reported for pattern
`p` at rune index `e`: `Position = e - len([]rune(p.Word)) + 1`, with the
rune length of the original (pre-normalization) pattern word. -/
def mkMatch (p : PatternInfo) (e : Nat) : ACMatch :=
  ⟨p.word, (e : ℤ) - p.word.toList.length + 1, p.category, p.nsfwScore⟩

/-- Go source, ahocorasick.go lines 133-155: the traversal loop of `Search`.
At each rune the automaton steps, then reports every pattern in the new
node's output, `position` being the rune index. -/
def searchFrom (u : UnicodeData) (P : List PatternInfo) :
    List Char → List Char → Nat → List ACMatch
  | [], _, _ => []
  | c :: rest, s, pos =>
      let s2 := nextState u P s c
      ((outputsOf u P s2).map fun p => mkMatch p pos)
        ++ searchFrom u P rest s2 (pos + 1)

/-- Go source, ahocorasick.go lines 124-158: `Search` normalizes the text
and walks it from the root at rune position 0. -/
def search (u : UnicodeData) (P : List PatternInfo) (text : String) :
    List ACMatch :=
  searchFrom u P (normalizeText u text.toList) [] 0

/-- Following the spec's words: pattern `pat` has an occurrence ending at
rune index `e` of `text`. -/
def endsAtSpec (pat text : List Char) (e : Nat) : Bool :=
  !pat.isEmpty && pat.isSuffixOf (text.take (e + 1))

/-- Following the spec's words: the expected match list — for each rune
index `e` of the normalized text, one match per pattern whose normalized
word occurs ending at `e` (overlapping and suffix occurrences included),
the occurrences at one index listed longest first.  It is defined purely
over the text (suffixes of its prefixes), with no automaton concepts;
`outputsAt_mem_iff_endsAtSpec` states that the block at index `e` holds
exactly the patterns with an occurrence ending at `e`. -/
def specSearch (u : UnicodeData) (P : List PatternInfo) (text : String) :
    List ACMatch :=
  let nt := normalizeText u text.toList
  ((List.range nt.length).map fun e =>
    (outputsAt u P (nt.take (e + 1))).map fun p =>
      mkMatch p e).flatten

/-- Following the spec's words: the start positions (in code points) of the
occurrences of `pat` inside `text`. -/
def specOccurrences (pat text : List Char) : List Nat :=
  (List.range (text.length + 1 - pat.length)).filter fun i =>
    pat.isPrefixOf (text.drop i)

/-! ## Text moderation pipeline (`internal/pkg/moderator/text.go`)

`TextModerator.Moderate` (lines 206-328) runs: L1 Redis cache, L2 durable
cache, Bloom prefilter (whole text, then tokens), Aho-Corasick, the NSFW
text classifier, severity thresholds, then writeback.  External
collaborators are modelled as follows: the Redis L1 cache and the durable
L2 store are threaded state (association lists, newest binding first); the
Bloom filter and the classifier are oracles in the environment (`none` is a
transport error); availability flags say whether Redis and the repository
are reachable and whether a cache checker is configured.  JSON
marshal/unmarshal of the L1 envelope is assumed to round-trip, so the
envelope is stored structurally.  The detached feedback goroutine touches
neither cache, so it leaves the modelled state unchanged. -/

/-- Response of `nsfw.TextClient.Predict` (the fields Moderate reads). -/
structure TextPredictResp where
  isNsfw : Bool
  safetyLabel : String
  categories : List String
  deriving Repr, DecidableEq

/-- Go source, text.go lines 51-58: the JSON envelope stored in Redis. -/
structure TextCacheEntry where
  category : String
  nsfwScore : ℚ
  isClean : Bool
  shouldReject : Bool
  shouldReview : Bool
  categories : List String
  deriving Repr, DecidableEq

/-- The durable row written by `SaveTextResult` (fields read back). -/
structure TextDbRow where
  normalizedContent : String
  category : String
  nsfwScore : ℚ
  deriving Repr, DecidableEq

/-- Go source, text.go lines 37-40: a cached result from the DB. -/
structure TextCacheResult where
  category : String
  nsfwScore : ℚ
  deriving Repr, DecidableEq

/-- Go source, text.go lines 19-30: the result of text moderation. -/
structure TextModerationResult where
  isClean : Bool
  acMatches : List ACMatch   -- field `Matches` (renamed: `matches` is a Lean keyword)
  maxNsfwScore : ℚ
  categories : List String
  shouldReject : Bool
  shouldReview : Bool
  nsfwChecked : Bool
  detectedByNSFW : Bool
  detectedPhrases : List String
  cacheHit : Bool
  deriving Repr, DecidableEq

/-- Go source, text.go lines 207-212: the initial clean result. -/
def defaultTextResult : TextModerationResult :=
  ⟨true, [], 0, [], false, false, false, false, [], false⟩

/-- The threaded state: the Redis L1 cache and the durable L2 store. -/
structure TextSt where
  redis : List (String × TextCacheEntry)
  db : List (String × TextDbRow)
  deriving Repr, DecidableEq

/-- The environment of one `Moderate` call: Unicode tables, the automaton's
pattern list, the Bloom and classifier oracles, availability flags, and the
moderator's configuration. -/
structure TextEnv where
  u : UnicodeData
  patterns : List PatternInfo
  bloomExists : List Nat → Option Bool
  classifier : Option (String → Option TextPredictResp)
  hasDb : Bool
  redisUp : Bool
  dbUp : Bool
  rejectThreshold : ℚ
  reviewThreshold : ℚ
  cacheKeyPrefix : String

/-- Instrumentation of one call: whether the classifier RPC was issued and
whether the Aho-Corasick search ran. -/
structure TextTrace where
  classifierCalled : Bool
  acRan : Bool
  deriving Repr, DecidableEq

/-- Result, new state and trace of one `Moderate` call. -/
structure ModOut where
  result : TextModerationResult
  st : TextSt
  trace : TextTrace

/-- Go source, text.go lines 484-490: word characters for tokenization. -/
def isWordChar (c : Char) : Bool :=
  decide ('a' ≤ c ∧ c ≤ 'z') || decide ('A' ≤ c ∧ c ≤ 'Z') ||
  decide ('0' ≤ c ∧ c ≤ '9') || decide (c = '_') || decide (128 ≤ c.toNat)

/-- Helper of `tokenize`: the accumulated current word is kept reversed. -/
def tokenizeFrom : List Char → List Char → List String
  | [], cur => if cur.isEmpty then [] else [String.mk cur.reverse]
  | c :: rest, cur =>
      if isWordChar c then tokenizeFrom rest (c :: cur)
      else if cur.isEmpty then tokenizeFrom rest []
      else String.mk cur.reverse :: tokenizeFrom rest []

/-- Go source, text.go lines 461-482: split on non-word characters. -/
def tokenize (s : String) : List String :=
  tokenizeFrom s.toList []

/-- Go source, text.go lines 372-385: category union.  The Go map iteration
order is unspecified; first-occurrence order is fixed here, and no theorem
below depends on that order. -/
def mergeCategories (existing ns : List String) : List String :=
  (existing ++ ns).eraseDups

/-- ASCII lowercasing standing in for `strings.ToLower`, which Moderate
only applies to the ASCII safety labels before comparing with "unsafe" and
"controversial". -/
def lowerAscii (s : String) : String :=
  String.mk (s.toList.map fun c =>
    if 'A' ≤ c ∧ c ≤ 'Z' then Char.ofNat (c.toNat + 32) else c)

/-- Go source, text.go lines 338-346: cache category of a result. -/
def resultToCategory (r : TextModerationResult) : String :=
  if r.shouldReject then "unsafe"
  else if r.shouldReview then "controversial"
  else "safe"

/-- Go source, text.go lines 428-439: a cached envelope read back as a
result, `CacheHit` set. -/
def cacheEntryToResult (en : TextCacheEntry) : TextModerationResult :=
  ⟨en.isClean, [], en.nsfwScore, en.categories, en.shouldReject,
   en.shouldReview, false, false, [], true⟩

/-- Go source, text.go lines 441-452: a DB row promoted to an envelope. -/
def dbCacheToEntry (d : TextCacheResult) : TextCacheEntry :=
  ⟨d.category, d.nsfwScore, d.category == "safe", d.category == "unsafe",
   d.category == "controversial", []⟩

/-- Go source, text.go lines 404-406: the L1 key is prefix ++ hash hex. -/
def redisCacheKey (e : TextEnv) (contentHashHex : String) : String :=
  e.cacheKeyPrefix ++ contentHashHex

/-- Go source, text.go lines 408-418: read the L1 envelope; any Redis or
decode error reads as a miss. -/
def getFromRedisCache (e : TextEnv) (st : TextSt) (contentHashHex : String) :
    Option TextCacheEntry :=
  if e.redisUp then st.redis.lookup (redisCacheKey e contentHashHex) else none

/-- Go source, text.go lines 420-426: write the L1 envelope; write errors
are swallowed, leaving the cache unchanged. -/
def setRedisCache (e : TextEnv) (st : TextSt) (contentHashHex : String)
    (entry : TextCacheEntry) : TextSt :=
  if e.redisUp then
    { st with redis := (redisCacheKey e contentHashHex, entry) :: st.redis }
  else st

/-- The adapter `textCacheCheckerAdapter.FindByContentHash`: a repo error or
a missing row both fall through as a miss in Moderate's step 3. -/
def findByContentHash (e : TextEnv) (st : TextSt) (contentHashHex : String) :
    Option TextCacheResult :=
  if e.dbUp then (st.db.lookup contentHashHex).map fun r => ⟨r.category, r.nsfwScore⟩
  else none

/-- Go source, text.go lines 349-369: durably upsert the row (failures
swallowed), then write the L1 envelope. -/
def saveTextResult (e : TextEnv) (st : TextSt)
    (contentHashHex normalizedContent category : String) (nsfwScore : ℚ)
    (r : TextModerationResult) : TextSt :=
  let st1 :=
    if e.hasDb && e.dbUp then
      { st with db := (contentHashHex, ⟨normalizedContent, category, nsfwScore⟩) :: st.db }
    else st
  setRedisCache e st1 contentHashHex
    ⟨category, nsfwScore, r.isClean, r.shouldReject, r.shouldReview, r.categories⟩

/-- Go source, text.go lines 253-261: one token's Bloom membership check —
SHA-256 hex of the normalized token, as bytes; only an affirmative,
error-free `true` counts. -/
def tokenHit (e : TextEnv) (tok : String) : Bool :=
  e.bloomExists (strBytes (hashTextSha256 (normalizeTextS e.u tok))) == some true

/-- Go source, text.go lines 240-328: Moderate's steps 4-7 — Bloom
prefilter over `FastHash` of the normalized text (an errored check leaves
`hasPotentialMatch` untouched, lines 244-247), token-level Bloom checks,
Aho-Corasick when the prefilter fired, classifier, severity thresholds,
then writeback. -/
def moderateCore (e : TextEnv) (st : TextSt) (text nt contentHashHex : String) :
    ModOut :=
  let wholeHit := e.bloomExists (fastHash nt) == some true
  let hasPotentialMatch := wholeHit || (tokenize text).any (tokenHit e)
  let ms := if hasPotentialMatch then search e.u e.patterns nt else []
  let r1 : TextModerationResult :=
    if ms.isEmpty then defaultTextResult
    else
      { defaultTextResult with
        isClean := false
        acMatches := ms
        maxNsfwScore := ms.foldl (fun acc m => if acc < m.nsfwScore then m.nsfwScore else acc) 0
        categories := (ms.map (·.category)).eraseDups }
  let needModel := !(decide (e.rejectThreshold ≤ r1.maxNsfwScore))
  let callCls := e.classifier.isSome && needModel
  let r2 :=
    match e.classifier with
    | none => r1
    | some cls =>
        if needModel then
          match cls text with
          | none => r1
          | some resp =>
              let ra := { r1 with nsfwChecked := true }
              if resp.isNsfw then
                let rb := { ra with
                  isClean := false
                  detectedByNSFW := true
                  categories := mergeCategories ra.categories resp.categories }
                let rc :=
                  if lowerAscii resp.safetyLabel = "unsafe" then
                    { rb with shouldReject := true }
                  else if lowerAscii resp.safetyLabel = "controversial" then
                    { rb with shouldReview := true }
                  else rb
                { rc with detectedPhrases := rc.detectedPhrases ++ [text] }
              else ra
        else r1
  let r3 :=
    if e.rejectThreshold ≤ r2.maxNsfwScore then { r2 with shouldReject := true }
    else if e.reviewThreshold ≤ r2.maxNsfwScore then { r2 with shouldReview := true }
    else r2
  let st2 := saveTextResult e st contentHashHex nt (resultToCategory r3) r3.maxNsfwScore r3
  ⟨r3, st2, ⟨callCls, hasPotentialMatch⟩⟩

/-- Go source, text.go lines 206-328: `TextModerator.Moderate`.  The Go
function's error return is always nil, so the embedding is total.  Step 1
computes `contentHash := hash.FastHash(normalizedText)` and hex-encodes it;
steps 2-3 are the L1 and L2 cache lookups; the rest is `moderateCore`. -/
def moderate (e : TextEnv) (st : TextSt) (text : String) : ModOut :=
  if text = "" then ⟨defaultTextResult, st, ⟨false, false⟩⟩
  else
    let nt := normalizeTextS e.u text
    let contentHashHex := hexEncode (fastHash nt)
    match getFromRedisCache e st contentHashHex with
    | some cached => ⟨cacheEntryToResult cached, st, ⟨false, false⟩⟩
    | none =>
        match (if e.hasDb then findByContentHash e st contentHashHex else none) with
        | some dbResult =>
            let entry := dbCacheToEntry dbResult
            ⟨cacheEntryToResult entry, setRedisCache e st contentHashHex entry,
             ⟨false, false⟩⟩
        | none => moderateCore e st text nt contentHashHex

/-! ## Image moderation pipeline (`internal/pkg/moderator/image.go`)

`LocalImageModerator.ModerateImageURL` (pHash → Bloom → exact DB lookup →
classifier) and `detectNSFWFromURL` (classifier + learning writeback).  The
HTTP fetch, image decode and pHash computation happen inside
`hasher.ComputeHashFromURL`; that composite is the deterministic oracle
`computePHash` (`none` = fetch/decode failure).  The image Bloom key and
the `image_caches` table are threaded state. -/

/-- Response of the image classifier (the fields the pipeline reads). -/
structure NsfwResp where
  isNsfw : Bool
  nsfwScore : ℚ
  deriving Repr, DecidableEq

/-- A row of the `image_caches` table (`biz.ImageCache`, fields used).  The
`phash` column is an `int64`; it is carried as its 64-bit pattern. -/
structure ImageCacheRow where
  fileHash : String
  pHash : Nat
  category : String
  nsfwScore : ℚ
  sourceURL : String
  deriving Repr, DecidableEq

/-- Go source, image.go lines 360-370: the result of image moderation
(fields used; the category map is an association list, no theorem below
depends on its order). -/
structure ImageModerationResult where
  isClean : Bool
  categories : List (String × ℚ)
  shouldReject : Bool
  shouldReview : Bool
  pHash : Nat
  nsfwScore : ℚ
  cacheHit : Bool
  deriving Repr, DecidableEq

/-- The threaded state: the image Bloom key and the `image_caches` table. -/
structure ImgSt where
  bloom : BitSetState
  db : List ImageCacheRow
  deriving Repr, DecidableEq

/-- The environment of the image pipeline in the snapshot's
`ModerateImageURL`: the pHash oracle, the optional classifier, repository
availability, and configuration. -/
structure ImgEnv where
  computePHash : String → Option Nat
  nsfwClient : Option (String → Option NsfwResp)
  dbReadOk : Bool
  dbWriteOk : Bool
  nsfwThreshold : ℚ
  bloom : Filter

/-- Result, new state, and whether the classifier RPC was issued. -/
structure ImgOut where
  result : ImageModerationResult
  st : ImgSt
  classifierCalled : Bool

/-- Go source, image.go lines 597-602: big-endian bytes of the pHash. -/
def phashToBytes (p : Nat) : List Nat := be8 (w64 p)

/-- The two's-complement `int64` reading of a 64-bit pattern (Go's
`int64(phash)` cast). -/
def i64 (p : Nat) : Int :=
  if w64 p < 9223372036854775808 then (w64 p : Int)
  else (w64 p : Int) - 18446744073709551616

/-- Go source, data/moderator.go lines 38-50: the snapshot's adapter
`FindByPHash` — fetch rows with this exact pHash and report whether any has
a non-safe category.  A repository error is logged at the call sites and
leaves `exists` false, which `dbReadOk = false` models. -/
def findByPHashExact (e : ImgEnv) (st : ImgSt) (p : Nat) : Bool :=
  e.dbReadOk && st.db.any fun row => row.pHash == w64 p && row.category != "safe"

/-- Go source, image.go lines 574-589: upsert the bad-image row (keyed by
`"phash:" ++ int64` as the adapter builds it, data/moderator.go lines
52-66), then add the pHash to the image Bloom; a failed DB write returns
early (no Bloom add), a failed Bloom add is only logged. -/
def saveBadImage (e : ImgEnv) (st : ImgSt) (p : Nat) (category : String)
    (score : ℚ) (sourceURL : String) : ImgSt :=
  if e.dbWriteOk then
    let fh := "phash:" ++ toString (i64 p)
    let row : ImageCacheRow := ⟨fh, w64 p, category, score, sourceURL⟩
    let st1 := { st with db := row :: st.db.filter fun r => r.fileHash != fh }
    match addWithCtx e.bloom st1.bloom (phashToBytes p) with
    | .ok b => { st1 with bloom := b }
    | .error _ => st1
  else st

/-- The clean default image result with the given pHash (image.go lines
540-544). -/
def emptyImageResult (p : Nat) : ImageModerationResult :=
  ⟨true, [], false, false, p, 0, false⟩

/-- Go source, image.go lines 539-572: `detectNSFWFromURL` — classify the
URL; on a flag (`IsNsfw` or score ≥ threshold) reject, and learn the image
(DB + Bloom) only when `phash ≠ 0`; classifier errors and a missing client
yield the clean default with no writes. -/
def detectNSFWFromURL (e : ImgEnv) (st : ImgSt) (url : String) (phash : Nat) :
    ImgOut :=
  let r0 := emptyImageResult phash
  match e.nsfwClient with
  | none => ⟨r0, st, false⟩
  | some predict =>
      match predict url with
      | none => ⟨r0, st, true⟩
      | some resp =>
          let r1 := { r0 with
            nsfwScore := resp.nsfwScore
            categories := [("nsfw", resp.nsfwScore)] }
          if resp.isNsfw || decide (e.nsfwThreshold ≤ resp.nsfwScore) then
            let r2 := { r1 with isClean := false, shouldReject := true }
            if phash != 0 then
              ⟨r2, saveBadImage e st phash "nsfw" resp.nsfwScore url, true⟩
            else ⟨r2, st, true⟩
          else ⟨r1, st, true⟩

/-- Go source, image.go lines 451-490: `ModerateImageURL` in the snapshot —
pHash (falling back to direct detection with pHash 0 on failure), Bloom on
the exact pHash bytes (an errored check leaves `maybeExists` false), exact
DB confirmation, else classification. -/
def moderateImageURLSnap (e : ImgEnv) (st : ImgSt) (url : String) : ImgOut :=
  match e.computePHash url with
  | none => detectNSFWFromURL e st url 0
  | some phash =>
      let maybeExists :=
        (existsWithCtx e.bloom st.bloom (phashToBytes phash)).toOption.getD false
      if maybeExists then
        if findByPHashExact e st phash then
          ⟨⟨false, [("nsfw", 1)], true, false, phash, 0, true⟩, st, false⟩
        else detectNSFWFromURL e st url phash
      else detectNSFWFromURL e st url phash

/-! ## Similarity lookup and the current image pipeline

The data layer in the snapshot (`part_014`, `file_repo.go`, and the
`FindSimilarByPHash` SQL query) belongs to a newer image pipeline whose
`ModerateImageURL(ctx, ownerID, url, fileHash)` is missing from the
snapshot — only its caller (`ModerationUsecase.Moderate`) and its data
adapter are present.  The similarity lookup below is embedded from the
present SQL and adapter code; the missing pipeline itself is modelled from
the spec. -/

/-- The Hamming distance between two 64-bit patterns, as the SQL
`bit_count((phash # target)::bit(64))` computes it. -/
def hammingDist (a b : Nat) : Nat :=
  (List.range 64).countP fun i => (w64 a ^^^ w64 b).testBit i

/-- Stable insertion into a list sorted by ascending `key`. -/
def insertByKey (key : ImageCacheRow → Nat) (x : ImageCacheRow) :
    List ImageCacheRow → List ImageCacheRow
  | [] => [x]
  | y :: ys =>
      if key x ≤ key y then x :: y :: ys else y :: insertByKey key x ys

/-- Stable sort by ascending `key` (insertion sort). -/
def sortByKey (key : ImageCacheRow → Nat) : List ImageCacheRow → List ImageCacheRow
  | [] => []
  | x :: xs => insertByKey key x (sortByKey key xs)

/-- Go source, file_repo.go lines 161-174 with the `FindSimilarByPHash`
query (image_cache.sql lines 18-25): rows with a non-safe category within
`maxDistance` bits, ordered by ascending distance, limited to 5.  SQL
leaves the order of ties unspecified; the stable sort fixes table order. -/
def findSimilarByPHash (db : List ImageCacheRow) (p : Nat) (maxDistance : Nat) :
    List ImageCacheRow :=
  (sortByKey (fun r => hammingDist r.pHash p)
    (db.filter fun row =>
      row.category != "safe" && decide (hammingDist row.pHash p ≤ maxDistance))).take 5

/-- The similarity result the adapter hands the pipeline (part_014). -/
structure ImageCacheResult where
  category : String
  nsfwScore : ℚ
  pHash : Nat
  deriving Repr, DecidableEq

/-- Go source, part_014 lines 72-86: the current adapter `FindByPHash` —
run the similarity query and return the closest match, if any.  A
repository error surfaces to the pipeline, which treats it as a miss
(spec §4.6: repo failures are logged); `dbReadOk = false` models that. -/
def findByPHashSimilar (dbReadOk : Bool) (db : List ImageCacheRow) (p : Nat)
    (maxDistance : Nat) : Option ImageCacheResult :=
  if dbReadOk then
    match findSimilarByPHash db p maxDistance with
    | [] => none
    | m :: _ => some ⟨m.category, m.nsfwScore, m.pHash⟩
  else none

/-- Environment of the current (spec-modelled) image pipeline.  The fetch,
decode, SHA-256 file hash and pHash of the bytes behind a URL are
deterministic oracles. -/
structure ImgCurEnv where
  computePHash : String → Option Nat
  fileHashOf : String → String
  nsfwClient : Option (String → Option NsfwResp)
  dbReadOk : Bool
  dbWriteOk : Bool
  nsfwThreshold : ℚ
  maxDistance : Nat
  bloom : Filter

/-- A cache-hit result built from a stored row (spec §4.6 steps 1 and 3:
a hit returns immediately with `cacheHit` set; an unsafe row rejects). -/
def rowHitResult (row : ImageCacheRow) : ImageModerationResult :=
  ⟨row.category == "safe", [("nsfw", row.nsfwScore)], row.category != "safe",
   false, w64 row.pHash, row.nsfwScore, true⟩

/-- Modelled from the spec: the current
`LocalImageModerator.ModerateImageURL(ctx, ownerID, url, fileHash)` is
missing from the snapshot (only its caller and its data adapter are
present); steps follow spec §4.6.  Step 1: a supplied fileHash that hits
the store returns immediately.  Steps 2-4: fetch once, compute fileHash
and pHash (a fetch/decode failure fails the operation, `none` here), and
re-check the store.  Step 5: check the image Bloom on the 8-byte
big-endian pHash; on a possible hit run the similarity lookup with the
configured `maxDistance` (default 10); a match rejects with the matched
entry's category and score, also written back under the new fileHash.
Step 6: otherwise classify; reject when flagged or the score reaches the
threshold.  Step 7: write the classified row back regardless of verdict;
on unsafe also add the pHash to the image Bloom.  Classifier errors yield
a clean default with no writeback; the L1 envelope of the spec duplicates
the durable row and is elided here. -/
def moderateImageURLCur (e : ImgCurEnv) (st : ImgSt) (ownerID url : String)
    (fileHash : Option String) : Option ImgOut :=
  match fileHash.bind (fun fh => st.db.find? fun r => r.fileHash == fh) with
  | some row => some ⟨rowHitResult row, st, false⟩
  | none =>
      match e.computePHash url with
      | none => none
      | some phash =>
          let fh := e.fileHashOf url
          match st.db.find? fun r => r.fileHash == fh with
          | some row => some ⟨rowHitResult row, st, false⟩
          | none =>
              let maybeExists :=
                (existsWithCtx e.bloom st.bloom (phashToBytes phash)).toOption.getD false
              let similar :=
                if maybeExists then
                  findByPHashSimilar e.dbReadOk st.db phash e.maxDistance
                else none
              match similar with
              | some m =>
                  let row : ImageCacheRow := ⟨fh, w64 phash, m.category, m.nsfwScore, url⟩
                  let st1 :=
                    if e.dbWriteOk then
                      { st with db := row :: st.db.filter fun r => r.fileHash != fh }
                    else st
                  some ⟨⟨false, [(m.category, m.nsfwScore)], true, false, w64 phash,
                         m.nsfwScore, true⟩, st1, false⟩
              | none =>
                  match e.nsfwClient with
                  | none => some ⟨emptyImageResult phash, st, false⟩
                  | some predict =>
                      match predict url with
                      | none => some ⟨emptyImageResult phash, st, true⟩
                      | some resp =>
                          let flagged :=
                            resp.isNsfw || decide (e.nsfwThreshold ≤ resp.nsfwScore)
                          let category := if flagged then "unsafe" else "safe"
                          let row : ImageCacheRow :=
                            ⟨fh, w64 phash, category, resp.nsfwScore, url⟩
                          let st1 :=
                            if e.dbWriteOk then
                              { st with db := row :: st.db.filter fun r => r.fileHash != fh }
                            else st
                          let st2 :=
                            if flagged then
                              match addWithCtx e.bloom st1.bloom (phashToBytes phash) with
                              | .ok b => { st1 with bloom := b }
                              | .error _ => st1
                            else st1
                          some ⟨⟨!flagged, [("nsfw", resp.nsfwScore)], flagged, false,
                                 w64 phash, resp.nsfwScore, false⟩, st2, true⟩

/-! ## Verdict synthesis (`internal/biz/badimage.go`)

`ModerationUsecase.Moderate` (lines 867-961) runs the text pipeline, then
the image loop, then the video loop, and synthesizes the final action with
`fillVerdict` (lines 963-977).  The three per-modality moderators enter as
oracles: `none` is a moderation error (propagated for text, logged and
skipped for images and videos). -/

/-- Result of video moderation (`moderator.VideoModerationResult` fields
used by the dispatcher). -/
structure VideoModerationResult where
  isClean : Bool
  shouldReject : Bool
  shouldReview : Bool
  maxNSFWScore : ℚ
  maxViolenceScore : ℚ
  deriving Repr, DecidableEq

/-- Go source, badimage.go lines 621-629: the final action. -/
inductive ModerationAction where
  | unspecified
  | autoApprove
  | autoReject
  | pendingReview
  deriving Repr, DecidableEq

/-- Go source, badimage.go lines 631-639: the verdict. -/
inductive Verdict where
  | unspecified
  | clean
  | reject
  | review
  deriving Repr, DecidableEq

/-- Go source, badimage.go lines 604-619: the complete moderation result
(`ProcessedAt`, a wall-clock timestamp, is not modelled). -/
structure ModerationResult where
  requestID : String
  isClean : Bool
  action : ModerationAction
  verdict : Verdict
  reason : String
  categories : List String
  scores : List (String × ℚ)
  textResult : Option TextModerationResult
  imageResult : Option ImageModerationResult
  videoResult : Option VideoModerationResult
  deriving Repr, DecidableEq

/-- The dispatcher's three collaborators.  `textMod` is
`textModerator.Moderate` (its Go error return is always nil; `none` kept
for the dispatcher's error check), `imageMod` is
`imageModerator.ModerateImageURL(ctx, "", url, nil)` and `videoMod` is
`videoModerator.ModerateVideoURL(ctx, url)`, with `none` a moderation
error. -/
structure BizEnv where
  textMod : String → Option TextModerationResult
  imageMod : String → Option ImageModerationResult
  videoMod : String → Option VideoModerationResult

/-- Go source, badimage.go lines 963-977: fill action, verdict, reason. -/
def fillVerdict (r : ModerationResult) (shouldReject shouldReview : Bool) :
    ModerationResult :=
  if shouldReject then
    { r with action := .autoReject, verdict := .reject,
             reason := "Content rejected due to policy violation" }
  else if shouldReview then
    { r with action := .pendingReview, verdict := .review,
             reason := "Content flagged for manual review" }
  else { r with action := .autoApprove, verdict := .clean }

/-- Go source, badimage.go lines 979-1001: aggregate the score map (here an
association list in the source's visiting order). -/
def fillScores (r : ModerationResult) (t : Option TextModerationResult)
    (i : Option ImageModerationResult) (v : Option VideoModerationResult) :
    ModerationResult :=
  let st := match t with
    | some tr => if 0 < tr.maxNsfwScore then [("text_nsfw", tr.maxNsfwScore)] else []
    | none => []
  let si := match i with
    | some ir => ir.categories
    | none => []
  let sv := match v with
    | some vr =>
        (if 0 < vr.maxNSFWScore then [("video_nsfw", vr.maxNSFWScore)] else []) ++
        (if 0 < vr.maxViolenceScore then [("video_violence", vr.maxViolenceScore)] else [])
    | none => []
  { r with scores := st ++ si ++ sv }

/-- Go source, badimage.go lines 892-911: the image loop — errors are
logged and skipped, an unclean result clears `IsClean` (its categories are
not appended: that line is commented out in the source), the last result
is kept, and the loop breaks at the first rejecting image. -/
def imageLoop (e : BizEnv) : List String → ModerationResult → ModerationResult
  | [], r => r
  | url :: rest, r =>
      match e.imageMod url with
      | none => imageLoop e rest r
      | some ir =>
          let r1 := if ir.isClean then r else { r with isClean := false }
          let r2 := { r1 with imageResult := some ir }
          if ir.shouldReject then r2 else imageLoop e rest r2

/-- Go source, badimage.go lines 930-946: the video loop, same shape. -/
def videoLoop (e : BizEnv) : List String → ModerationResult → ModerationResult
  | [], r => r
  | url :: rest, r =>
      match e.videoMod url with
      | none => videoLoop e rest r
      | some vr =>
          let r1 := if vr.isClean then r else { r with isClean := false }
          let r2 := { r1 with videoResult := some vr }
          if vr.shouldReject then r2 else videoLoop e rest r2

/-- Go source, badimage.go lines 867-961: `ModerationUsecase.Moderate`.
Audio moderation is commented out in the source, so `audioURLs` is unread.
A text moderation error propagates (`none`); the final verdict looks only
at the three retained per-modality results. -/
def bizModerate (e : BizEnv) (requestID content : String)
    (imageURLs audioURLs videoURLs : List String) : Option ModerationResult :=
  let r0 : ModerationResult :=
    ⟨requestID, true, .unspecified, .unspecified, "", [], [], none, none, none⟩
  let step1 : Option ModerationResult :=
    if content = "" then some r0
    else
      match e.textMod content with
      | none => none
      | some tr =>
          let r := { r0 with textResult := some tr }
          some (if tr.isClean then r
                else { r with isClean := false,
                              categories := r.categories ++ tr.categories })
  match step1 with
  | none => none
  | some r1 =>
      let r2 := imageLoop e imageURLs r1
      let r3 := videoLoop e videoURLs r2
      let sRej :=
        (r3.textResult.map (·.shouldReject)).getD false ||
        (r3.imageResult.map (·.shouldReject)).getD false ||
        (r3.videoResult.map (·.shouldReject)).getD false
      let sRev :=
        (r3.textResult.map (·.shouldReview)).getD false ||
        (r3.imageResult.map (·.shouldReview)).getD false ||
        (r3.videoResult.map (·.shouldReview)).getD false
      some (fillScores (fillVerdict r3 sRej sRev) r3.textResult r3.imageResult
        r3.videoResult)

/-- The per-modality results the dispatcher's loops actually retain, in
processing order: failed moderations are skipped and processing stops
right after the first rejecting result. -/
def processedResults (mod : String → Option α) (reject : α → Bool) :
    List String → List α
  | [] => []
  | url :: rest =>
      match mod url with
      | none => processedResults mod reject rest
      | some x => x :: (if reject x then [] else processedResults mod reject rest)

/-! ## Concrete Unicode instances used by witnesses and counterexamples -/

/-- An identity `UnicodeData`.  It agrees with the real Unicode tables on
every string whose characters have no canonical decomposition, are not
combining marks, and are fixed by lowercasing — in particular on ASCII
strings without uppercase letters. -/
def uId : UnicodeData := ⟨id, fun _ => false, id, id⟩

/-! ## Theorems -/

/-- Helper: with a positive bit length every derived location is in range,
because each is a remainder modulo `bits`. -/
theorem getLocations_lt (f : Filter) (hb : 0 < f.bits) (data : List Nat) :
    ∀ loc ∈ getLocations f data, loc < f.bits := by
  intro loc hl
  simp only [getLocations, List.mem_map] at hl
  obtain ⟨i, -, rfl⟩ := hl
  exact Nat.mod_lt _ hb

/-- Helper: in-range offsets pass the defensive guard unchanged. -/
theorem buildOffsetArgs_ok {bits : Nat} {offsets : List Nat}
    (h : ∀ o ∈ offsets, o < bits) :
    buildOffsetArgs bits offsets = .ok offsets := by
  induction offsets with
  | nil => rfl
  | cons o rest ih =>
      have ho : o < bits := h o (by simp)
      simp only [buildOffsetArgs, if_neg (by omega : ¬ bits ≤ o),
        ih fun x hx => h x (by simp [hx])]
      rfl

/-- C9: for every Bloom filter with positive bit length `m` and every
input, each of the k derived offsets (murmur3-64 of the data with the hash
index appended, reduced modulo m) is strictly below m, so `Add` and
`Exists` never take the defensive `ErrTooLargeOffset` branch. -/
theorem bloom_offsets_in_range (f : Filter) (hb : 0 < f.bits)
    (data : List Nat) (st : BitSetState) :
    (∀ loc ∈ getLocations f data, loc < f.bits) ∧
    (addWithCtx f st data).isOk = true ∧
    (existsWithCtx f st data).isOk = true := by
  have hlt := getLocations_lt f hb data
  have hargs := buildOffsetArgs_ok hlt
  refine ⟨hlt, ?_, ?_⟩
  · simp only [addWithCtx, bitSetSet, hargs]
    rfl
  · simp only [existsWithCtx, bitSetCheck, hargs]
    cases getScriptEval st (getLocations f data) <;> rfl

/-- Witness for C9 at the text pipeline's default parameters
(m = 8388608 bits, k = 5) on a concrete datum and an absent key. -/
theorem bloom_offsets_in_range_witness :
    0 < (8388608 : Nat) ∧
    ((∀ loc ∈ getLocations ⟨8388608, 5⟩ [0], loc < (8388608 : Nat)) ∧
     (addWithCtx ⟨8388608, 5⟩ none [0]).isOk = true ∧
     (existsWithCtx ⟨8388608, 5⟩ none [0]).isOk = true) :=
  ⟨by norm_num, bloom_offsets_in_range ⟨8388608, 5⟩ (by norm_num) [0] none⟩

/-- C8: on one Bloom instance with fixed `(m, k)` and positive `m`, if
`Add(d)` succeeds and the key is neither deleted nor rebuilt in between —
the bits set by the add are still set, the key still exists — then a
subsequent `Exists(d)` returns `true`: no false negatives. -/
theorem bloom_no_false_negatives (f : Filter) (hb : 0 < f.bits)
    (data : List Nat) (st : BitSetState) (l later : List Nat)
    (hadd : addWithCtx f st data = .ok (some l))
    (hgrow : ∀ x ∈ l, x ∈ later) :
    existsWithCtx f (some later) data = .ok true := by
  have hlt := getLocations_lt f hb data
  have hargs := buildOffsetArgs_ok hlt
  have hl : l = st.getD [] ++ getLocations f data := by
    simp only [addWithCtx, bitSetSet, hargs, setScriptEval] at hadd
    exact (Option.some.inj (Except.ok.inj hadd)).symm
  have hmem : ∀ x ∈ getLocations f data, x ∈ later := by
    intro x hx
    exact hgrow x (hl ▸ List.mem_append_right _ hx)
  simp only [existsWithCtx, bitSetCheck, hargs, getScriptEval]
  have hall : (getLocations f data).all (fun o => decide (o ∈ later)) = true := by
    simp only [List.all_eq_true, decide_eq_true_eq]
    exact hmem
  simp [hall]

/-- Witness for C8: add a concrete datum to an absent key of the default
text Bloom and look it up again on the resulting state. -/
theorem bloom_no_false_negatives_witness :
    existsWithCtx ⟨8388608, 5⟩ (some (getLocations ⟨8388608, 5⟩ [7, 7])) [7, 7]
      = .ok true :=
  bloom_no_false_negatives ⟨8388608, 5⟩ (by norm_num) [7, 7] none
    (getLocations ⟨8388608, 5⟩ [7, 7]) (getLocations ⟨8388608, 5⟩ [7, 7])
    (by rfl) (fun x hx => hx)

/-- C1 (code bug): the text pipeline's `contentHash` — used as the key of
the L1 lookup, the L2 lookup and the writeback — is
`hex(FastHash(normalizedText))`, and `FastHash` is the 8-byte xxHash64,
not SHA-256: on input "a" (its own normalized text) the pipeline key is
the 16-digit xxHash64 hex, which differs from the SHA-256 hex digest that
`Moderate`'s own doc comment ("Compute SHA256 contentHash"), `AddWord`,
and `RemoveBadWord` (both keyed by `HashTextSha256`) expect. -/
theorem contentHash_is_xxhash_not_sha256 :
    normalizeTextS uId "a" = "a" ∧
    hexEncode (fastHash "a") = "5b6e8ca9f1c44ed2" ∧
    hashTextSha256 "a" =
      "ca978112ca1bbdcafac231b39a23dc4da786eff8147c4e72b9807785afee48bb" ∧
    hexEncode (fastHash "a") ≠ hashTextSha256 "a" := by
  refine ⟨rfl, by decide, by decide, by decide⟩

/-- C10: when the classifier flags a URL but the pipeline's pHash is 0 —
including the fallback path where pHash computation failed — the rejection
is returned with no write to the bad-image store or the image Bloom. -/
theorem nsfw_phash_zero_no_learning (e : ImgEnv) (st : ImgSt) (url : String)
    (predict : String → Option NsfwResp) (resp : NsfwResp)
    (hp : e.computePHash url = none ∨ e.computePHash url = some 0)
    (hc : e.nsfwClient = some predict)
    (hr : predict url = some resp)
    (hf : resp.isNsfw = true ∨ e.nsfwThreshold ≤ resp.nsfwScore) :
    (moderateImageURLSnap e st url).result.shouldReject = true ∧
    (moderateImageURLSnap e st url).st = st := by
  have hflag : (resp.isNsfw || decide (e.nsfwThreshold ≤ resp.nsfwScore)) = true := by
    rcases hf with h | h
    · simp [h]
    · simp [h]
  have hdet : detectNSFWFromURL e st url 0 =
      ⟨{ emptyImageResult 0 with
           nsfwScore := resp.nsfwScore
           categories := [("nsfw", resp.nsfwScore)]
           isClean := false
           shouldReject := true }, st, true⟩ := by
    simp [detectNSFWFromURL, hc, hr, hflag]
  rcases hp with h | h
  · simp [moderateImageURLSnap, h, hdet]
  · cases hme : (existsWithCtx e.bloom st.bloom (phashToBytes 0)).toOption.getD false with
    | true =>
        cases hfind : findByPHashExact e st 0 with
        | true => simp [moderateImageURLSnap, h, hme, hfind]
        | false => simp [moderateImageURLSnap, h, hme, hfind, hdet]
    | false => simp [moderateImageURLSnap, h, hme, hdet]

/-- Witness for C10: a URL whose pHash computation fails and whose
classification flags it. -/
theorem nsfw_phash_zero_no_learning_witness :
    (moderateImageURLSnap
        ⟨fun _ => none, some fun _ => some ⟨true, 1⟩, true, true, 7/10, ⟨1048576, 7⟩⟩
        ⟨none, []⟩ "u").result.shouldReject = true ∧
    (moderateImageURLSnap
        ⟨fun _ => none, some fun _ => some ⟨true, 1⟩, true, true, 7/10, ⟨1048576, 7⟩⟩
        ⟨none, []⟩ "u").st = ⟨none, []⟩ :=
  nsfw_phash_zero_no_learning _ _ "u" (fun _ => some ⟨true, 1⟩) ⟨true, 1⟩
    (Or.inl rfl) rfl rfl (Or.inl rfl)

/-- Helper: the leet substitution is idempotent — its values ('o', 'i',
'e', 'a', 's', 't', 'b') are not among its keys. -/
theorem leetSub_leetSub (c : Char) : leetSub (leetSub c) = leetSub c := by
  by_cases h0 : c = '0'
  · simp [leetSub, h0]
  · by_cases h1 : c = '1'
    · simp [leetSub, h1]
    · by_cases h3 : c = '3'
      · simp [leetSub, h3]
      · by_cases h4 : c = '4'
        · simp [leetSub, h4]
        · by_cases h5 : c = '5'
          · simp [leetSub, h5]
          · by_cases h7 : c = '7'
            · simp [leetSub, h7]
            · by_cases h8 : c = '8'
              · simp [leetSub, h8]
              · by_cases hat : c = '@'
                · simp [leetSub, hat]
                · by_cases hd : c = '$'
                  · simp [leetSub, hd]
                  · simp [leetSub, h0, h1, h3, h4, h5, h7, h8, hat, hd]

/-- C7: `NormalizeText` is idempotent.  The two hypotheses are the facts
about the external Unicode tables the proof needs, and the real tables
satisfy them: `hT` says a fully normalized string is stable under the
`NFD → strip Mn → NFC` transform (its characters are composed and carry no
nonspacing marks), and `hlow` says lowercasing fixes the output of
`leetSub ∘ toLower` (the leet values are lowercase letters and simple
Unicode lowercasing is idempotent). -/
theorem normalize_idempotent (u : UnicodeData)
    (hT : ∀ s, normTransform u (normalizeText u s) = normalizeText u s)
    (hlow : ∀ c, u.lower (leetSub (u.lower c)) = leetSub (u.lower c))
    (s : List Char) :
    normalizeText u (normalizeText u s) = normalizeText u s := by
  have h1 : normalizeText u (normalizeText u s)
      = ((normalizeText u s).map u.lower).map leetSub := by
    show ((normTransform u (normalizeText u s)).map u.lower).map leetSub = _
    rw [hT s]
  rw [h1]
  show ((((normTransform u s).map u.lower).map leetSub).map u.lower).map leetSub
      = ((normTransform u s).map u.lower).map leetSub
  simp only [List.map_map]
  apply List.map_congr_left
  intro a _
  simp only [Function.comp_apply]
  rw [hlow a, leetSub_leetSub]

/-- Witness for C7 on a concrete `UnicodeData` satisfying the hypotheses
and a concrete string exercising the leet map. -/
theorem normalize_idempotent_witness :
    normalizeText uId
        (normalizeText uId ('h' :: '3' :: 'l' :: 'l' :: '0' :: []))
      = normalizeText uId ('h' :: '3' :: 'l' :: 'l' :: '0' :: []) :=
  normalize_idempotent uId
    (fun s => by
      show ((normalizeText uId s).filter fun c => !uId.isMn c) = normalizeText uId s
      simp [uId])
    (fun c => rfl)
    ('h' :: '3' :: 'l' :: 'l' :: '0' :: [])

/-! ### Aho-Corasick correctness (C6) -/

/-- Helper: two booleans agreeing as propositions are equal. -/
theorem bool_eq_of_iff {a b : Bool} (h : a = true ↔ b = true) : a = b := by
  cases a <;> cases b <;> simp_all

/-- Helper: the node test, as a proposition. -/
theorem isState_iff (u : UnicodeData) (P : List PatternInfo) (s : List Char) :
    isState u P s = true ↔ s = [] ∨ ∃ p ∈ P, s <+: normWord u p := by
  simp [isState, List.isEmpty_iff, List.any_eq_true, List.isPrefixOf_iff_prefix]

/-- Helper: the node rested on after reading `l` is a suffix of `l`. -/
theorem reach_suffix (u : UnicodeData) (P : List PatternInfo) (l : List Char) :
    reach u P l <:+ l := by
  induction l with
  | nil => exact List.suffix_rfl
  | cons c rest ih =>
      by_cases h : isState u P (c :: rest) = true
      · rw [reach, if_pos h]
      · rw [reach, if_neg h]
        exact ih.trans (List.suffix_cons c rest)

/-- Helper: `reach` lands on a node. -/
theorem isState_reach (u : UnicodeData) (P : List PatternInfo) (l : List Char) :
    isState u P (reach u P l) = true := by
  induction l with
  | nil => simp [reach, isState]
  | cons c rest ih =>
      by_cases h : isState u P (c :: rest) = true
      · rw [reach, if_pos h]; exact h
      · rw [reach, if_neg h]; exact ih

/-- Helper: `reach` lands on the longest node-suffix — this is exactly what
the build-time fail links encode: the fail chain of a node walks its
shorter node-suffixes in decreasing length. -/
theorem reach_longest (u : UnicodeData) (P : List PatternInfo) (l : List Char) :
    ∀ t, t <:+ l → isState u P t = true → t <:+ reach u P l := by
  induction l with
  | nil =>
      intro t ht _
      rw [List.suffix_nil.mp ht]
      exact List.nil_suffix
  | cons c rest ih =>
      intro t ht hst
      by_cases h : isState u P (c :: rest) = true
      · rw [reach, if_pos h]; exact ht
      · rcases List.suffix_cons_iff.mp ht with rfl | ht2
        · exact absurd hst h
        · rw [reach, if_neg h]; exact ih t ht2 hst

/-- Helper: nodes are closed under dropping the last rune (the trie is
prefix-closed). -/
theorem isState_of_concat (u : UnicodeData) (P : List PatternInfo)
    (t : List Char) (c : Char) (h : isState u P (t ++ [c]) = true) :
    isState u P t = true := by
  rcases (isState_iff u P (t ++ [c])).mp h with hnil | ⟨p, hp, hpre⟩
  · exact absurd hnil (by simp)
  · exact (isState_iff u P t).mpr (Or.inr ⟨p, hp, (List.prefix_append t [c]).trans hpre⟩)

/-- Helper: appending one rune preserves the suffix relation. -/
theorem suffix_append_singleton {t r : List Char} (c : Char) (h : t <:+ r) :
    t ++ [c] <:+ r ++ [c] := by
  obtain ⟨v, hv⟩ := h
  exact ⟨v, by rw [← List.append_assoc, hv]⟩

/-- Helper: a nonempty suffix of `l ++ [c]` ends in `c` and its front is a
suffix of `l`. -/
theorem suffix_concat_decompose {t l : List Char} {c : Char}
    (h : t <:+ l ++ [c]) (hne : t ≠ []) :
    ∃ s, t = s ++ [c] ∧ s <:+ l := by
  rcases List.eq_nil_or_concat t with rfl | ⟨s, d, rfl⟩
  · exact absurd rfl hne
  · rw [List.concat_eq_append] at h ⊢
    obtain ⟨v, hv⟩ := h
    rw [← List.append_assoc] at hv
    obtain ⟨h1, h2⟩ := List.append_inj' hv (by simp)
    have hd : d = c := by simpa using h2
    exact ⟨s, by rw [hd], ⟨v, h1⟩⟩

/-- Helper: reading one more rune from the rested node is the same as
reading it from the full history — the step the `Search` loop takes via
fail links agrees with the denotational automaton. -/
theorem reach_append (u : UnicodeData) (P : List PatternInfo) (l : List Char)
    (c : Char) :
    reach u P (l ++ [c]) = reach u P (reach u P l ++ [c]) := by
  have d1 : reach u P (reach u P l ++ [c]) <:+ reach u P (l ++ [c]) := by
    apply reach_longest
    · exact (reach_suffix u P _).trans (suffix_append_singleton c (reach_suffix u P l))
    · exact isState_reach u P _
  have d2 : reach u P (l ++ [c]) <:+ reach u P (reach u P l ++ [c]) := by
    by_cases hne : reach u P (l ++ [c]) = []
    · rw [hne]; exact List.nil_suffix
    · obtain ⟨s, hs, hsl⟩ := suffix_concat_decompose (reach_suffix u P (l ++ [c])) hne
      have hstc : isState u P (s ++ [c]) = true := hs ▸ isState_reach u P (l ++ [c])
      have hsr : s <:+ reach u P l :=
        reach_longest u P l s hsl (isState_of_concat u P s c hstc)
      apply reach_longest
      · rw [hs]; exact suffix_append_singleton c hsr
      · rw [hs]; exact hstc
  exact d2.eq_of_length (Nat.le_antisymm d2.length_le d1.length_le)

/-- Helper: a pattern's normalized word is a suffix of the rested node iff
it is a suffix of the whole processed prefix — the content of the
build-time output merging along fail links. -/
theorem normWord_suffix_reach_iff (u : UnicodeData) (P : List PatternInfo)
    (p : PatternInfo) (hp : p ∈ P) (l : List Char) :
    normWord u p <:+ reach u P l ↔ normWord u p <:+ l := by
  constructor
  · exact fun h => h.trans (reach_suffix u P l)
  · intro h
    exact reach_longest u P l _ h
      ((isState_iff u P _).mpr (Or.inr ⟨p, hp, List.prefix_rfl⟩))

/-- Helper: the first `done.length + 1` runes of `done ++ c :: rs`. -/
theorem take_append_cons (done : List Char) (c : Char) (rs : List Char) :
    (done ++ c :: rs).take (done.length + 1) = done ++ [c] := by
  have h1 : done ++ c :: rs = (done ++ [c]) ++ rs := by simp
  have h2 : done.length + 1 = (done ++ [c]).length := by simp
  rw [h1, h2, List.take_left]

/-- Helper: membership in the per-index block — the patterns listed are
exactly those whose nonempty normalized word is a suffix of `pre`. -/
theorem mem_outputsAt (u : UnicodeData) (P : List PatternInfo)
    (pre : List Char) (p : PatternInfo) :
    p ∈ outputsAt u P pre ↔ p ∈ P ∧ normWord u p ≠ [] ∧ normWord u p <:+ pre := by
  simp only [outputsAt, List.mem_flatMap, List.mem_tails]
  constructor
  · rintro ⟨t, ht, hp⟩
    by_cases he : t.isEmpty
    · rw [if_pos he] at hp
      exact absurd hp (List.not_mem_nil p)
    · rw [if_neg he] at hp
      obtain ⟨hpP, hbeq⟩ := List.mem_filter.mp hp
      have heq : normWord u p = t := eq_of_beq hbeq
      refine ⟨hpP, ?_, heq ▸ ht⟩
      intro hnil
      exact he (by rw [heq] at hnil; rw [hnil]; rfl)
  · rintro ⟨hpP, hne2, hsuf⟩
    refine ⟨normWord u p, hsuf, ?_⟩
    rw [if_neg (by simpa [List.isEmpty_iff] using hne2)]
    exact List.mem_filter.mpr ⟨hpP, beq_self_eq_true _⟩

/-- Helper: the block of `specSearch` at end index `e` holds exactly the
patterns with an occurrence ending at `e`, in the spec's sense. -/
theorem outputsAt_mem_iff_endsAtSpec (u : UnicodeData) (P : List PatternInfo)
    (nt : List Char) (e : Nat) (p : PatternInfo) :
    p ∈ outputsAt u P (nt.take (e + 1)) ↔
      p ∈ P ∧ endsAtSpec (normWord u p) nt e = true := by
  rw [mem_outputsAt]
  simp [endsAtSpec, List.isEmpty_iff, List.isSuffixOf_iff_suffix, and_assoc]

/-- Helper: the per-index block depends only on the rested node — a
non-node suffix is no pattern's normalized word (it would be a prefix of
itself), so its filter block is empty and the block of the whole prefix
collapses to the block of its longest node-suffix.  This is the content of
the build-time output merging along fail links. -/
theorem outputsAt_reach (u : UnicodeData) (P : List PatternInfo)
    (l : List Char) :
    outputsAt u P (reach u P l) = outputsAt u P l := by
  induction l with
  | nil => rfl
  | cons c rest ih =>
      by_cases h : isState u P (c :: rest) = true
      · rw [reach, if_pos h]
      · rw [reach, if_neg h, ih]
        have hg : (P.filter fun p => normWord u p == (c :: rest)) = [] := by
          rw [List.filter_eq_nil_iff]
          intro p hp hbeq
          have heq : normWord u p = c :: rest := eq_of_beq hbeq
          exact h ((isState_iff u P _).mpr
            (Or.inr ⟨p, hp, by rw [heq]⟩))
        show outputsAt u P rest = outputsAt u P (c :: rest)
        simp only [outputsAt, List.tails_cons, List.flatMap_cons]
        rw [if_neg (by simp), hg, List.nil_append]

/-- Helper: with no empty normalized word in the pattern set, the node
output of `s` coincides with the per-index block of `s` (the root's own
output is empty then). -/
theorem outputsOf_eq_outputsAt (u : UnicodeData) (P : List PatternInfo)
    (hne : ∀ p ∈ P, normWord u p ≠ []) (s : List Char) :
    outputsOf u P s = outputsAt u P s := by
  cases s with
  | nil =>
      have h1 : (P.filter fun p => (normWord u p).isEmpty) = [] := by
        rw [List.filter_eq_nil_iff]
        intro p hp hb
        exact hne p hp (List.isEmpty_iff.mp hb)
      have h2 : outputsAt u P ([] : List Char) = [] := rfl
      simp [outputsOf, h1, h2]
  | cons c rest =>
      rw [outputsOf, if_neg (by simp)]

/-- Helper: the outputs reported after reading `done ++ [c]` are exactly
the block of the prefix read so far. -/
theorem outputsOf_reach (u : UnicodeData) (P : List PatternInfo)
    (hne : ∀ p ∈ P, normWord u p ≠ []) (done : List Char) (c : Char)
    (rs : List Char) :
    outputsOf u P (reach u P (done ++ [c])) =
      outputsAt u P ((done ++ c :: rs).take (done.length + 1)) := by
  rw [outputsOf_eq_outputsAt u P hne, outputsAt_reach, take_append_cons]

/-- Helper: the walk invariant of `Search` — starting from the node rested
on after `done`, the traversal of `rest` reports, at each rune index, one
match per pattern whose normalized word ends there. -/
theorem searchFrom_spec (u : UnicodeData) (P : List PatternInfo)
    (hne : ∀ p ∈ P, normWord u p ≠ []) :
    ∀ (rest done : List Char),
      searchFrom u P rest (reach u P done) done.length =
        ((List.range rest.length).map fun j =>
          (outputsAt u P
            ((done ++ rest).take (done.length + j + 1))).map fun p =>
              mkMatch p (done.length + j)).flatten := by
  intro rest
  induction rest with
  | nil => intro done; simp [searchFrom]
  | cons c rs ih =>
      intro done
      have hstep : nextState u P (reach u P done) c = reach u P (done ++ [c]) :=
        (reach_append u P done c).symm
      have htail := ih (done ++ [c])
      simp only [List.length_append, List.length_singleton, List.append_assoc,
        List.singleton_append] at htail
      simp only [searchFrom, hstep, htail, List.length_cons,
        List.range_succ_eq_map, List.map_cons, List.flatten_cons]
      congr 1
      · rw [Nat.add_zero, outputsOf_reach u P hne done c rs]
      · rw [List.map_map]
        apply congrArg
        apply List.map_congr_left
        intro j hj
        simp only [Function.comp_apply, Nat.succ_eq_add_one]
        have harith : done.length + 1 + j = done.length + (j + 1) := by omega
        rw [harith]

/-- C6 (amended): for every pattern set whose normalized words are
nonempty and every text, `Search` returns exactly, for each rune index `e`
of the normalized text in order, one match per pattern whose normalized
word occurs ending at `e` — including overlapping suffix occurrences
propagated via failure links, the occurrences at one index reported
longest first (a node's own patterns precede those inherited along fail
links) — and each match's reported position is `e - len([]rune(word)) + 1`
with the rune length of the original pattern word.  (When normalization
preserves that length, this is the occurrence's start in code points of
the normalized text.) -/
theorem search_eq_specSearch (u : UnicodeData) (P : List PatternInfo)
    (text : String) (hne : ∀ p ∈ P, normWord u p ≠ []) :
    search u P text = specSearch u P text := by
  have h := searchFrom_spec u P hne (normalizeText u text.toList) []
  simp only [List.nil_append, List.length_nil, Nat.zero_add] at h
  simpa [search, specSearch, reach] using h

/-- A pattern set for the C6 witness: "ab" and its overlapping suffix "b". -/
def acWitnessPatterns : List PatternInfo := [⟨"ab", "x", 1⟩, ⟨"b", "y", 1/2⟩]

/-- Witness for C6 (amended) on a concrete pattern set with overlapping
suffix matches. -/
theorem search_eq_specSearch_witness :
    search uId acWitnessPatterns "abab" = specSearch uId acWitnessPatterns "abab" :=
  search_eq_specSearch uId acWitnessPatterns "abab" (by decide)

/-- U+0301, the combining acute accent — category Mn in real Unicode. -/
def combAcute : Char := Char.ofNat 769

/-- A `UnicodeData` agreeing with the real Unicode tables on every code
point the C6 counterexample exercises: 'e' has no canonical decomposition,
is lowercase, and is its own NFC form; U+0301 is a nonspacing mark (Mn);
the sequence "e" followed by U+0301 is already in NFD form. -/
def uAcc : UnicodeData := ⟨id, fun c => c == combAcute, id, id⟩

/-- A pattern whose word is the decomposed "é": 'e' followed by U+0301.
Normalization strips the mark, so the normalized word "e" has 1 rune while
the original word has 2. -/
def accentPattern : PatternInfo := ⟨String.mk ['e', combAcute], "accent", 1⟩

/-- C6 (counterexample): searching the text "e" for the decomposed-"é"
pattern reports the single occurrence of its normalized word "e" at
position -1 — `Search` subtracts the rune length of the original word
(2), not of the normalized word (1) — although the occurrence starts at
code point 0 of the normalized text. -/
theorem search_position_counterexample :
    (search uAcc [accentPattern] "e").map (fun m => m.position) = [-1] ∧
    specOccurrences (normWord uAcc accentPattern)
      (normalizeText uAcc "e".toList) = [0] := by
  constructor
  · decide
  · decide

/-! ### Verdict synthesis (C2) -/

/-- A modality flag of one URL's moderation: `false` when moderation
errored. -/
def modFlagB (mod : String → Option α) (f : α → Bool) (u : String) : Bool :=
  ((mod u).map f).getD false

/-- The text modality's flag: there is no text result for empty content. -/
def textFlag (e : BizEnv) (content : String)
    (f : TextModerationResult → Bool) : Bool :=
  if content = "" then false else ((e.textMod content).map f).getD false

/-- The flag of the last result a loop retains: the last successful
moderation in the prefix ending at the first rejecting one. -/
def lastKeptFlag (mod : String → Option α) (rej f : α → Bool)
    (urls : List String) : Bool :=
  ((processedResults mod rej urls).getLast?.map f).getD false

/-- Helper: some processed result rejects iff some successfully moderated
URL in the whole list rejects (the loop stops only after a reject, so it
cannot miss the first one). -/
theorem processedResults_any_reject (mod : String → Option α) (rej : α → Bool)
    (urls : List String) :
    (processedResults mod rej urls).any rej = urls.any (modFlagB mod rej) := by
  induction urls with
  | nil => rfl
  | cons url rest ih =>
      cases hm : mod url with
      | none => simp [processedResults, hm, modFlagB, ih]
      | some x =>
          cases hx : rej x with
          | true => simp [processedResults, hm, hx, modFlagB]
          | false => simp [processedResults, hm, hx, modFlagB, ih]

/-- Helper: the retained (last processed) result rejects iff any processed
result does — the loop stops right after the first reject, so a rejecting
result can only sit at the end. -/
theorem processedResults_getLast_reject (mod : String → Option α)
    (rej : α → Bool) (urls : List String) :
    ((processedResults mod rej urls).getLast?.map rej).getD false =
      (processedResults mod rej urls).any rej := by
  induction urls with
  | nil => rfl
  | cons url rest ih =>
      cases hm : mod url with
      | none => simp only [processedResults, hm]; exact ih
      | some x =>
          cases hx : rej x with
          | true => simp [processedResults, hm, hx]
          | false =>
              simp only [processedResults, hm, hx, if_neg Bool.false_ne_true]
              cases hrest : processedResults mod rej rest with
              | nil => simp [hx]
              | cons y ys =>
                  rw [List.getLast?_cons_cons]
                  rw [hrest] at ih
                  simp only [List.any_cons, hx, Bool.false_or]
                  exact ih

/-- Helper: the image loop does not touch the text result. -/
theorem imageLoop_textResult (e : BizEnv) (urls : List String)
    (r : ModerationResult) :
    (imageLoop e urls r).textResult = r.textResult := by
  induction urls generalizing r with
  | nil => rfl
  | cons url rest ih =>
      cases hm : e.imageMod url with
      | none => simp [imageLoop, hm, ih]
      | some ir =>
          cases hx : ir.shouldReject with
          | true => simp only [imageLoop, hm, hx, if_pos]; split <;> rfl
          | false => simp only [imageLoop, hm, hx, if_neg Bool.false_ne_true, ih]; split <;> rfl

/-- Helper: the image loop does not touch the video result. -/
theorem imageLoop_videoResult (e : BizEnv) (urls : List String)
    (r : ModerationResult) :
    (imageLoop e urls r).videoResult = r.videoResult := by
  induction urls generalizing r with
  | nil => rfl
  | cons url rest ih =>
      cases hm : e.imageMod url with
      | none => simp [imageLoop, hm, ih]
      | some ir =>
          cases hx : ir.shouldReject with
          | true => simp only [imageLoop, hm, hx, if_pos]; split <;> rfl
          | false => simp only [imageLoop, hm, hx, if_neg Bool.false_ne_true, ih]; split <;> rfl

/-- Helper: the image result the loop retains. -/
theorem imageLoop_imageResult (e : BizEnv) (urls : List String)
    (r : ModerationResult) :
    (imageLoop e urls r).imageResult =
      ((processedResults e.imageMod (fun x => x.shouldReject) urls).getLast?.map
        some).getD r.imageResult := by
  induction urls generalizing r with
  | nil => rfl
  | cons url rest ih =>
      cases hm : e.imageMod url with
      | none => simp only [imageLoop, processedResults, hm]; exact ih r
      | some ir =>
          cases hx : ir.shouldReject with
          | true => simp [imageLoop, processedResults, hm, hx]
          | false =>
              simp only [imageLoop, processedResults, hm, hx, if_neg Bool.false_ne_true]
              cases hrest : processedResults e.imageMod (fun x => x.shouldReject) rest with
              | nil =>
                  have := ih { (if ir.isClean then r
                    else { r with isClean := false }) with imageResult := some ir }
                  rw [hrest] at this
                  simpa using this
              | cons y ys =>
                  rw [List.getLast?_cons_cons]
                  have := ih { (if ir.isClean then r
                    else { r with isClean := false }) with imageResult := some ir }
                  rw [hrest] at this
                  exact this

/-- Helper: the video loop does not touch the text result. -/
theorem videoLoop_textResult (e : BizEnv) (urls : List String)
    (r : ModerationResult) :
    (videoLoop e urls r).textResult = r.textResult := by
  induction urls generalizing r with
  | nil => rfl
  | cons url rest ih =>
      cases hm : e.videoMod url with
      | none => simp [videoLoop, hm, ih]
      | some vr =>
          cases hx : vr.shouldReject with
          | true => simp only [videoLoop, hm, hx, if_pos]; split <;> rfl
          | false => simp only [videoLoop, hm, hx, if_neg Bool.false_ne_true, ih]; split <;> rfl

/-- Helper: the video loop does not touch the image result. -/
theorem videoLoop_imageResult (e : BizEnv) (urls : List String)
    (r : ModerationResult) :
    (videoLoop e urls r).imageResult = r.imageResult := by
  induction urls generalizing r with
  | nil => rfl
  | cons url rest ih =>
      cases hm : e.videoMod url with
      | none => simp [videoLoop, hm, ih]
      | some vr =>
          cases hx : vr.shouldReject with
          | true => simp only [videoLoop, hm, hx, if_pos]; split <;> rfl
          | false => simp only [videoLoop, hm, hx, if_neg Bool.false_ne_true, ih]; split <;> rfl

/-- Helper: the video result the loop retains. -/
theorem videoLoop_videoResult (e : BizEnv) (urls : List String)
    (r : ModerationResult) :
    (videoLoop e urls r).videoResult =
      ((processedResults e.videoMod (fun x => x.shouldReject) urls).getLast?.map
        some).getD r.videoResult := by
  induction urls generalizing r with
  | nil => rfl
  | cons url rest ih =>
      cases hm : e.videoMod url with
      | none => simp only [videoLoop, processedResults, hm]; exact ih r
      | some vr =>
          cases hx : vr.shouldReject with
          | true => simp [videoLoop, processedResults, hm, hx]
          | false =>
              simp only [videoLoop, processedResults, hm, hx, if_neg Bool.false_ne_true]
              cases hrest : processedResults e.videoMod (fun x => x.shouldReject) rest with
              | nil =>
                  have := ih { (if vr.isClean then r
                    else { r with isClean := false }) with videoResult := some vr }
                  rw [hrest] at this
                  simpa using this
              | cons y ys =>
                  rw [List.getLast?_cons_cons]
                  have := ih { (if vr.isClean then r
                    else { r with isClean := false }) with videoResult := some vr }
                  rw [hrest] at this
                  exact this

/-- Helper: filling the score map does not change the action. -/
theorem fillScores_action (r : ModerationResult) (t : Option TextModerationResult)
    (i : Option ImageModerationResult) (v : Option VideoModerationResult) :
    (fillScores r t i v).action = r.action := by
  simp [fillScores]

/-- Helper: the action `fillVerdict` decides. -/
theorem fillVerdict_action (r : ModerationResult) (a b : Bool) :
    ((fillVerdict r a b).action = .autoReject ↔ a = true) ∧
    ((fillVerdict r a b).action = .pendingReview ↔ a = false ∧ b = true) ∧
    ((fillVerdict r a b).action = .autoApprove ↔ a = false ∧ b = false) := by
  cases a <;> cases b <;> simp [fillVerdict]

/-- Helper: a retained result's flag, as `lastKeptFlag`. -/
theorem getD_lastKept (mod : String → Option α) (rej f : α → Bool)
    (urls : List String) :
    ((((processedResults mod rej urls).getLast?.map some).getD none).map f).getD false
      = lastKeptFlag mod rej f urls := by
  cases h : (processedResults mod rej urls).getLast? <;> simp [lastKeptFlag, h]

/-- Helper: a retained rejecting result is the same as any rejection among
the processed prefix. -/
theorem lastKeptFlag_reject (mod : String → Option α) (rej : α → Bool)
    (urls : List String) :
    lastKeptFlag mod rej rej urls = urls.any (modFlagB mod rej) := by
  rw [lastKeptFlag, processedResults_getLast_reject, processedResults_any_reject]

/-- Helper: the per-modality flags of the state after both loops, for a
start result carrying no image or video result yet. -/
theorem loops_results (e : BizEnv) (imgs vids : List String)
    (r1 : ModerationResult) (himg : r1.imageResult = none)
    (hvid : r1.videoResult = none) :
    (videoLoop e vids (imageLoop e imgs r1)).textResult = r1.textResult ∧
    ((videoLoop e vids (imageLoop e imgs r1)).imageResult.map
        (fun i => i.shouldReject)).getD false =
      imgs.any (modFlagB e.imageMod fun i => i.shouldReject) ∧
    ((videoLoop e vids (imageLoop e imgs r1)).imageResult.map
        (fun i => i.shouldReview)).getD false =
      lastKeptFlag e.imageMod (fun i => i.shouldReject)
        (fun i => i.shouldReview) imgs ∧
    ((videoLoop e vids (imageLoop e imgs r1)).videoResult.map
        (fun v => v.shouldReject)).getD false =
      vids.any (modFlagB e.videoMod fun v => v.shouldReject) ∧
    ((videoLoop e vids (imageLoop e imgs r1)).videoResult.map
        (fun v => v.shouldReview)).getD false =
      lastKeptFlag e.videoMod (fun v => v.shouldReject)
        (fun v => v.shouldReview) vids := by
  have himgres : (videoLoop e vids (imageLoop e imgs r1)).imageResult =
      (((processedResults e.imageMod (fun x => x.shouldReject) imgs).getLast?.map
        some).getD none) := by
    rw [videoLoop_imageResult, imageLoop_imageResult, himg]
  have hvidres : (videoLoop e vids (imageLoop e imgs r1)).videoResult =
      (((processedResults e.videoMod (fun x => x.shouldReject) vids).getLast?.map
        some).getD none) := by
    rw [videoLoop_videoResult, imageLoop_videoResult, hvid]
  refine ⟨?_, ?_, ?_, ?_, ?_⟩
  · rw [videoLoop_textResult, imageLoop_textResult]
  · rw [himgres, getD_lastKept, lastKeptFlag_reject]
  · rw [himgres, getD_lastKept]
  · rw [hvidres, getD_lastKept, lastKeptFlag_reject]
  · rw [hvidres, getD_lastKept]

/-- C2 (amended): the final action of the dispatcher is `AutoReject` iff
the text result, any successfully moderated image, or any successfully
moderated video has `shouldReject` (the loops short-circuit at the first
rejecting item, which is then the retained one); it is `PendingReview` iff
nothing rejected and the text result, the LAST retained image result, or
the last retained video result has `shouldReview` — a review flag on an
earlier image or video is overwritten and lost; otherwise `AutoApprove`. -/
theorem bizModerate_verdict (e : BizEnv) (rid content : String)
    (imgs auds vids : List String) (res : ModerationResult)
    (hres : bizModerate e rid content imgs auds vids = some res) :
    (res.action = .autoReject ↔
      (textFlag e content (fun t => t.shouldReject) ||
       imgs.any (modFlagB e.imageMod fun i => i.shouldReject) ||
       vids.any (modFlagB e.videoMod fun v => v.shouldReject)) = true) ∧
    (res.action = .pendingReview ↔
      (textFlag e content (fun t => t.shouldReject) ||
       imgs.any (modFlagB e.imageMod fun i => i.shouldReject) ||
       vids.any (modFlagB e.videoMod fun v => v.shouldReject)) = false ∧
      (textFlag e content (fun t => t.shouldReview) ||
       lastKeptFlag e.imageMod (fun i => i.shouldReject)
         (fun i => i.shouldReview) imgs ||
       lastKeptFlag e.videoMod (fun v => v.shouldReject)
         (fun v => v.shouldReview) vids) = true) ∧
    (res.action = .autoApprove ↔
      (textFlag e content (fun t => t.shouldReject) ||
       imgs.any (modFlagB e.imageMod fun i => i.shouldReject) ||
       vids.any (modFlagB e.videoMod fun v => v.shouldReject)) = false ∧
      (textFlag e content (fun t => t.shouldReview) ||
       lastKeptFlag e.imageMod (fun i => i.shouldReject)
         (fun i => i.shouldReview) imgs ||
       lastKeptFlag e.videoMod (fun v => v.shouldReject)
         (fun v => v.shouldReview) vids) = false) := by
  by_cases hc : content = ""
  · subst hc
    simp only [bizModerate, if_pos rfl] at hres
    have hres2 := (Option.some.inj hres).symm
    obtain ⟨ht, hir, hiv, hvr, hvv⟩ := loops_results e imgs vids
      ⟨rid, true, .unspecified, .unspecified, "", [], [], none, none, none⟩ rfl rfl
    rw [hres2, fillScores_action]
    have htf : ∀ f, textFlag e "" f = false := fun _ => rfl
    simp only [htf, ht, hir, hiv, hvr, hvv, Option.map_none', Option.getD_none,
      Bool.false_or]
    exact fillVerdict_action _ _ _
  · cases htr : e.textMod content with
    | none => simp [bizModerate, hc, htr] at hres
    | some tr =>
        simp only [bizModerate, if_neg hc, htr] at hres
        have hres2 := (Option.some.inj hres).symm
        generalize hIf :
          (if tr.isClean = true then
            { requestID := rid, isClean := true, action := .unspecified,
              verdict := .unspecified, reason := "", categories := ([] : List String),
              scores := [], textResult := some tr, imageResult := none,
              videoResult := none }
          else
            { requestID := rid, isClean := false, action := .unspecified,
              verdict := .unspecified, reason := "",
              categories := ([] : List String) ++ tr.categories,
              scores := [], textResult := some tr, imageResult := none,
              videoResult := none } : ModerationResult) = r1 at hres2
        have h1t : r1.textResult = some tr := by rw [← hIf]; split <;> rfl
        have h1i : r1.imageResult = none := by rw [← hIf]; split <;> rfl
        have h1v : r1.videoResult = none := by rw [← hIf]; split <;> rfl
        obtain ⟨ht, hir, hiv, hvr, hvv⟩ := loops_results e imgs vids r1 h1i h1v
        rw [hres2, fillScores_action]
        have htf : ∀ f, textFlag e content f = f tr := by
          intro f
          simp [textFlag, hc, htr]
        simp only [htf, ht, h1t, hir, hiv, hvr, hvv, Option.map_some',
          Option.getD_some]
        exact fillVerdict_action _ _ _

/-- An image result flagged for review (but not rejection). -/
def reviewImage : ImageModerationResult :=
  ⟨false, [("nsfw", 6/10)], false, true, 5, 6/10, false⟩

/-- A clean image result. -/
def cleanImage : ImageModerationResult :=
  ⟨true, [], false, false, 6, 0, false⟩

/-- A dispatcher environment whose image moderator flags URL "a" for
review and finds every other URL clean. -/
def bizEnvReview : BizEnv :=
  ⟨fun _ => none,
   fun url => if url = "a" then some reviewImage else some cleanImage,
   fun _ => none⟩

/-- C2 (counterexample): moderating images ["a", "b"] where "a" is flagged
for review and "b" is clean yields `AutoApprove`, although a moderated
modality result (image "a") has `shouldReview` set — the loop keeps only
the last image result, so the claim's "including any image in the list,
not only the last one" fails. -/
theorem bizModerate_review_lost_counterexample :
    ((bizModerate bizEnvReview "r" "" ["a", "b"] [] []).map fun r => r.action) =
      some .autoApprove ∧
    ((bizEnvReview.imageMod "a").map fun i => i.shouldReview).getD false = true := by
  constructor
  · decide
  · decide

/-- The result of the C2 witness run (computed by the dispatcher on images
["a", "b"] of `bizEnvReview`). -/
def bizWitnessRes : ModerationResult :=
  ⟨"w", false, .autoApprove, .clean, "", [], [], none, some cleanImage, none⟩

/-- Witness for C2 (amended), instantiating its `PendingReview`
characterization on a concrete dispatcher run. -/
theorem bizModerate_verdict_witness :
    bizWitnessRes.action = .pendingReview ↔
      (textFlag bizEnvReview "w" (fun t => t.shouldReject) ||
       ["a", "b"].any (modFlagB bizEnvReview.imageMod fun i => i.shouldReject) ||
       ([] : List String).any (modFlagB bizEnvReview.videoMod fun v => v.shouldReject)) = false ∧
      (textFlag bizEnvReview "w" (fun t => t.shouldReview) ||
       lastKeptFlag bizEnvReview.imageMod (fun i => i.shouldReject)
         (fun i => i.shouldReview) ["a", "b"] ||
       lastKeptFlag bizEnvReview.videoMod (fun v => v.shouldReject)
         (fun v => v.shouldReview) ([] : List String)) = true :=
  (bizModerate_verdict bizEnvReview "w" "" ["a", "b"] [] [] bizWitnessRes
    (by decide)).2.1

/-! ### Bloom failure handling in the text pipeline (C4) -/

/-- A text environment whose Bloom oracle always fails, with caches down
and no classifier, and one automaton pattern "bad". -/
def bloomErrEnv : TextEnv :=
  ⟨uId, [⟨"bad", "profanity", 1⟩], fun _ => none, none, false, false, false,
   2, 1, "moderation:text:"⟩

/-- C4 (counterexample): with every Bloom check failing, `Moderate("bad")`
does not run the Aho-Corasick search — the failed whole-text check leaves
`hasPotentialMatch` false and every failed token check contributes
nothing — and returns a clean result with no matches, although the search
would have found "bad".  The error is swallowed (the embedded `moderate`
is total because the Go function's error return is always nil), but the
failure is treated as a miss, not as a possible match. -/
theorem moderate_bloom_error_counterexample :
    (moderate bloomErrEnv ⟨[], []⟩ "bad").trace.acRan = false ∧
    (moderate bloomErrEnv ⟨[], []⟩ "bad").result.acMatches = [] ∧
    search uId bloomErrEnv.patterns "bad" ≠ [] := by
  refine ⟨by decide, by decide, by decide⟩

/-- C4 (amended): when the whole-text Bloom membership check fails with an
error (and neither cache layer hits), `Moderate` does not return the
error; it treats the failed check as a prefilter miss, so the Aho-Corasick
search runs exactly when some token-level Bloom check affirmatively
returns true. -/
theorem moderate_bloom_error_downgrades (e : TextEnv) (st : TextSt) (t : String)
    (hne : t ≠ "")
    (hL1 : getFromRedisCache e st (hexEncode (fastHash (normalizeTextS e.u t))) = none)
    (hL2 : (if e.hasDb then
        findByContentHash e st (hexEncode (fastHash (normalizeTextS e.u t)))
      else none) = none)
    (hbloom : e.bloomExists (fastHash (normalizeTextS e.u t)) = none) :
    (moderate e st t).trace.acRan = (tokenize t).any (tokenHit e) := by
  simp only [moderate, if_neg hne, hL1, hL2, moderateCore, hbloom]
  simp

/-- A text environment whose Bloom oracle fails on the whole-text key but
affirms the token key of "bad". -/
def bloomTokEnv : TextEnv :=
  ⟨uId, [⟨"bad", "profanity", 1⟩],
   fun bs => if bs = strBytes (hashTextSha256 "bad") then some true else none,
   none, false, false, false, 2, 1, "moderation:text:"⟩

/-- Witness for C4 (amended): the whole-text check fails, the token check
hits, and the Aho-Corasick search runs. -/
theorem moderate_bloom_error_downgrades_witness :
    (moderate bloomTokEnv ⟨[], []⟩ "bad").trace.acRan =
      (tokenize "bad").any (tokenHit bloomTokEnv) :=
  moderate_bloom_error_downgrades bloomTokEnv ⟨[], []⟩ "bad"
    (by decide) (by decide) (by decide) (by decide)

/-! ### Cache hit after unsafe writeback (C5) -/

/-- Helper: looking up the key just written finds its value. -/
theorem lookup_cons_self {β : Type} (k : String) (v : β)
    (l : List (String × β)) : ((k, v) :: l).lookup k = some v := by
  simp [List.lookup]

/-- Helper: Moderate on an L1 hit. -/
theorem moderate_hits_l1 (e : TextEnv) (st : TextSt) (t : String)
    (en : TextCacheEntry) (hemp : t ≠ "")
    (h : getFromRedisCache e st (hexEncode (fastHash (normalizeTextS e.u t))) = some en) :
    moderate e st t = ⟨cacheEntryToResult en, st, ⟨false, false⟩⟩ := by
  simp only [moderate, if_neg hemp, h]

/-- Helper: Moderate on an L1 miss and L2 hit. -/
theorem moderate_hits_l2 (e : TextEnv) (st : TextSt) (t : String)
    (dbRes : TextCacheResult) (hemp : t ≠ "")
    (h1 : getFromRedisCache e st (hexEncode (fastHash (normalizeTextS e.u t))) = none)
    (h2 : (if e.hasDb then
        findByContentHash e st (hexEncode (fastHash (normalizeTextS e.u t)))
      else none) = some dbRes) :
    moderate e st t =
      ⟨cacheEntryToResult (dbCacheToEntry dbRes),
       setRedisCache e st (hexEncode (fastHash (normalizeTextS e.u t)))
         (dbCacheToEntry dbRes),
       ⟨false, false⟩⟩ := by
  simp only [moderate, if_neg hemp, h1, h2]

/-- Helper: Moderate on a full cache miss runs the core pipeline. -/
theorem moderate_core_case (e : TextEnv) (st : TextSt) (t : String)
    (hemp : t ≠ "")
    (h1 : getFromRedisCache e st (hexEncode (fastHash (normalizeTextS e.u t))) = none)
    (h2 : (if e.hasDb then
        findByContentHash e st (hexEncode (fastHash (normalizeTextS e.u t)))
      else none) = none) :
    moderate e st t = moderateCore e st t (normalizeTextS e.u t)
      (hexEncode (fastHash (normalizeTextS e.u t))) := by
  simp only [moderate, if_neg hemp, h1, h2]

/-- Helper: the core pipeline's final state is the writeback of its own
result. -/
theorem moderateCore_st_eq (e : TextEnv) (st : TextSt) (t nt hx : String) :
    (moderateCore e st t nt hx).st =
      saveTextResult e st hx nt
        (resultToCategory (moderateCore e st t nt hx).result)
        (moderateCore e st t nt hx).result.maxNsfwScore
        (moderateCore e st t nt hx).result := rfl

/-- Helper: a fresh L1 write is found by the next L1 read. -/
theorem setRedisCache_lookup_self (e : TextEnv) (st : TextSt) (hx : String)
    (en : TextCacheEntry) (hred : e.redisUp = true) :
    getFromRedisCache e (setRedisCache e st hx en) hx = some en := by
  simp [getFromRedisCache, setRedisCache, hred, lookup_cons_self]

/-- Helper: with Redis down, the L1 write is swallowed. -/
theorem setRedisCache_down (e : TextEnv) (st : TextSt) (hx : String)
    (en : TextCacheEntry) (hred : e.redisUp = false) :
    setRedisCache e st hx en = st := by
  simp [setRedisCache, hred]

/-- Helper: with Redis down, every L1 read misses. -/
theorem getFromRedisCache_down (e : TextEnv) (st : TextSt) (hx : String)
    (hred : e.redisUp = false) : getFromRedisCache e st hx = none := by
  simp [getFromRedisCache, hred]

/-- Helper: after a writeback the L1 cache holds the written envelope. -/
theorem saveTextResult_redis_lookup (e : TextEnv) (st : TextSt)
    (hx nt cat : String) (sc : ℚ) (r : TextModerationResult)
    (hred : e.redisUp = true) :
    getFromRedisCache e (saveTextResult e st hx nt cat sc r) hx =
      some ⟨cat, sc, r.isClean, r.shouldReject, r.shouldReview, r.categories⟩ := by
  simp only [saveTextResult]
  split <;> simp [getFromRedisCache, setRedisCache, hred, lookup_cons_self]

/-- Helper: after a writeback with the repository configured and up, the
durable store holds the written row. -/
theorem findByContentHash_after_save (e : TextEnv) (st : TextSt)
    (hx nt cat : String) (sc : ℚ) (r : TextModerationResult)
    (hdb : e.hasDb = true) (hdbu : e.dbUp = true) :
    findByContentHash e (saveTextResult e st hx nt cat sc r) hx =
      some ⟨cat, sc⟩ := by
  have hdbfield : (saveTextResult e st hx nt cat sc r).db =
      (hx, ⟨nt, cat, sc⟩) :: st.db := by
    simp only [saveTextResult, setRedisCache, hdb, hdbu, Bool.and_self]
    split <;> rfl
  simp [findByContentHash, hdbu, hdbfield, lookup_cons_self]

/-- C5: if `Moderate(t)` flags `t` as unsafe and the cache writeback can
land (Redis is up, or the durable cache is configured and up), then a
second `Moderate(t)` on the resulting state returns via the cache-hit path
— `cacheHit` set, still rejecting (same "unsafe" category) — and does not
invoke the text classifier. -/
theorem moderate_unsafe_then_cache_hit (e : TextEnv) (st : TextSt) (t : String)
    (hrej : (moderate e st t).result.shouldReject = true)
    (hav : e.redisUp = true ∨ (e.hasDb = true ∧ e.dbUp = true)) :
    (moderate e (moderate e st t).st t).result.cacheHit = true ∧
    (moderate e (moderate e st t).st t).result.shouldReject = true ∧
    (moderate e (moderate e st t).st t).trace.classifierCalled = false := by
  by_cases hemp : t = ""
  · rw [hemp] at hrej
    simp [moderate, defaultTextResult] at hrej
  · cases hL1 : getFromRedisCache e st (hexEncode (fastHash (normalizeTextS e.u t))) with
    | some en =>
        have hout := moderate_hits_l1 e st t en hemp hL1
        have hen : en.shouldReject = true := by
          rw [hout] at hrej
          simpa [cacheEntryToResult] using hrej
        refine ⟨?_, ?_, ?_⟩ <;> simp [hout, cacheEntryToResult, hen]
    | none =>
        cases hL2 : (if e.hasDb then
            findByContentHash e st (hexEncode (fastHash (normalizeTextS e.u t)))
          else none) with
        | some dbRes =>
            have hout := moderate_hits_l2 e st t dbRes hemp hL1 hL2
            have hen : (dbCacheToEntry dbRes).shouldReject = true := by
              rw [hout] at hrej
              simpa [cacheEntryToResult] using hrej
            cases hred : e.redisUp with
            | false =>
                have hsame := setRedisCache_down e st
                  (hexEncode (fastHash (normalizeTextS e.u t)))
                  (dbCacheToEntry dbRes) hred
                refine ⟨?_, ?_, ?_⟩ <;>
                  simp [hout, hsame, cacheEntryToResult, hen]
            | true =>
                have hL1b := setRedisCache_lookup_self e st
                  (hexEncode (fastHash (normalizeTextS e.u t)))
                  (dbCacheToEntry dbRes) hred
                have hout2 := moderate_hits_l1 e
                  (setRedisCache e st (hexEncode (fastHash (normalizeTextS e.u t)))
                    (dbCacheToEntry dbRes)) t (dbCacheToEntry dbRes) hemp hL1b
                refine ⟨?_, ?_, ?_⟩ <;>
                  simp [hout, hout2, cacheEntryToResult, hen]
        | none =>
            have hout := moderate_core_case e st t hemp hL1 hL2
            rw [hout] at hrej
            have hcat : resultToCategory (moderateCore e st t (normalizeTextS e.u t)
                (hexEncode (fastHash (normalizeTextS e.u t)))).result = "unsafe" := by
              simp [resultToCategory, hrej]
            have hst2 : (moderate e st t).st =
                saveTextResult e st (hexEncode (fastHash (normalizeTextS e.u t)))
                  (normalizeTextS e.u t) "unsafe"
                  (moderateCore e st t (normalizeTextS e.u t)
                    (hexEncode (fastHash (normalizeTextS e.u t)))).result.maxNsfwScore
                  (moderateCore e st t (normalizeTextS e.u t)
                    (hexEncode (fastHash (normalizeTextS e.u t)))).result := by
              rw [hout, moderateCore_st_eq, hcat]
            cases hred : e.redisUp with
            | true =>
                have hL1b := saveTextResult_redis_lookup e st
                  (hexEncode (fastHash (normalizeTextS e.u t)))
                  (normalizeTextS e.u t) "unsafe"
                  (moderateCore e st t (normalizeTextS e.u t)
                    (hexEncode (fastHash (normalizeTextS e.u t)))).result.maxNsfwScore
                  (moderateCore e st t (normalizeTextS e.u t)
                    (hexEncode (fastHash (normalizeTextS e.u t)))).result hred
                rw [← hst2] at hL1b
                have hout2 := moderate_hits_l1 e (moderate e st t).st t _ hemp hL1b
                refine ⟨?_, ?_, ?_⟩ <;> simp [hout2, cacheEntryToResult, hrej]
            | false =>
                rcases hav with h | ⟨hdb, hdbu⟩
                · rw [hred] at h; exact absurd h (by simp)
                · have hL1c := getFromRedisCache_down e (moderate e st t).st
                    (hexEncode (fastHash (normalizeTextS e.u t))) hred
                  have hL2b : (if e.hasDb then
                      findByContentHash e (moderate e st t).st
                        (hexEncode (fastHash (normalizeTextS e.u t)))
                    else none) =
                      some ⟨"unsafe", (moderateCore e st t (normalizeTextS e.u t)
                        (hexEncode (fastHash (normalizeTextS e.u t)))).result.maxNsfwScore⟩ := by
                    rw [if_pos hdb, hst2]
                    exact findByContentHash_after_save e st _ _ _ _ _ hdb hdbu
                  have hout2 := moderate_hits_l2 e (moderate e st t).st t _ hemp hL1c hL2b
                  refine ⟨?_, ?_, ?_⟩ <;>
                    simp [hout2, cacheEntryToResult, dbCacheToEntry]

/-- A text environment for the C5 witness: no patterns, a classifier that
labels everything unsafe, Redis and the repository up. -/
def unsafeClsEnv : TextEnv :=
  ⟨uId, [], fun _ => some false, some fun _ => some ⟨true, "Unsafe", ["Violent"]⟩,
   true, true, true, 2, 1, "moderation:text:"⟩

/-- Witness for C5: moderate "kill" once (classifier flags it unsafe),
then again on the written-back state. -/
theorem moderate_unsafe_then_cache_hit_witness :
    (moderate unsafeClsEnv (moderate unsafeClsEnv ⟨[], []⟩ "kill").st "kill").result.cacheHit = true ∧
    (moderate unsafeClsEnv (moderate unsafeClsEnv ⟨[], []⟩ "kill").st "kill").result.shouldReject = true ∧
    (moderate unsafeClsEnv (moderate unsafeClsEnv ⟨[], []⟩ "kill").st "kill").trace.classifierCalled = false :=
  moderate_unsafe_then_cache_hit unsafeClsEnv ⟨[], []⟩ "kill" (by decide)
    (Or.inl rfl)

/-! ### Similarity lookup in the current image pipeline (C3) -/

/-- A learned unsafe image row with pHash 2. -/
def imgRowP2 : ImageCacheRow := ⟨"f2", 2, "nsfw", 1, "u2"⟩

/-- The image-pipeline state after pHash 2 was learned: the Bloom key
holds exactly the bit locations of the 8-byte big-endian pHash 2 (the
image Bloom default parameters m = 1048576, k = 7), and the store holds
its row. -/
def imgStP2 : ImgSt :=
  ⟨some (getLocations ⟨1048576, 7⟩ (phashToBytes 2)), [imgRowP2]⟩

/-- A current-pipeline environment whose URL hashes to pHash 3 — Hamming
distance 1 from the learned pHash 2 — with a classifier that finds it
clean, and the default maxDistance 10. -/
def imgCurEnvMiss : ImgCurEnv :=
  ⟨fun _ => some 3, fun _ => "fh-new", some fun _ => some ⟨false, 0⟩,
   true, true, 1, 10, ⟨1048576, 7⟩⟩

/-- C3 (counterexample): an image at Hamming distance 1 ≤ 10 from the
learned unsafe pHash 2 does NOT take the similarity rejection: step 5
gates the similarity lookup on Bloom membership of the NEW pHash's exact
8-byte key, which was never added, so the pipeline proceeds to the
classifier and returns without `cacheHit`. -/
theorem similar_requires_bloom_counterexample :
    hammingDist 3 2 = 1 ∧
    ((moderateImageURLCur imgCurEnvMiss imgStP2 "" "u" none).map
      fun o => o.result.cacheHit) = some false ∧
    ((moderateImageURLCur imgCurEnvMiss imgStP2 "" "u" none).map
      fun o => o.classifierCalled) = some true := by
  refine ⟨by decide, by decide, by decide⟩

/-- C3 (amended): when the image's pHash passes the image Bloom membership
check (in particular when it equals a previously learned pHash — the
Bloom has no false negatives) and the similarity lookup returns a closest
match within `maxDistance` (default 10) among non-safe cached entries,
`ModerateImageURL` returns a `cacheHit` rejection carrying the matched
entry's category and score, without calling the image classifier. -/
theorem moderateImageURLCur_similar_hit (e : ImgCurEnv) (st : ImgSt)
    (ownerID url : String) (phash : Nat) (m : ImageCacheResult)
    (hfh : (st.db.find? fun r => r.fileHash == e.fileHashOf url) = none)
    (hph : e.computePHash url = some phash)
    (hbloom : (existsWithCtx e.bloom st.bloom (phashToBytes phash)).toOption.getD false
      = true)
    (hsim : findByPHashSimilar e.dbReadOk st.db phash e.maxDistance = some m) :
    ((moderateImageURLCur e st ownerID url none).map fun o => o.result) =
      some ⟨false, [(m.category, m.nsfwScore)], true, false, w64 phash,
        m.nsfwScore, true⟩ ∧
    ((moderateImageURLCur e st ownerID url none).map fun o => o.classifierCalled) =
      some false := by
  simp only [moderateImageURLCur, Option.none_bind, hph, hfh, hbloom, if_pos, hsim]
  constructor <;> rfl

/-- A current-pipeline environment whose URL hashes to the learned pHash 2
itself (Hamming distance 0). -/
def imgCurEnvHit : ImgCurEnv :=
  ⟨fun _ => some 2, fun _ => "fh-new", some fun _ => some ⟨false, 0⟩,
   true, true, 1, 10, ⟨1048576, 7⟩⟩

/-- Witness for C3 (amended): a re-upload with the exact learned pHash
passes the Bloom, matches at distance 0, and is rejected from cache with
the learned row's category and score, classifier uncalled. -/
theorem moderateImageURLCur_similar_hit_witness :
    ((moderateImageURLCur imgCurEnvHit imgStP2 "" "u" none).map fun o => o.result) =
      some ⟨false, [("nsfw", 1)], true, false, w64 2, 1, true⟩ ∧
    ((moderateImageURLCur imgCurEnvHit imgStP2 "" "u" none).map
      fun o => o.classifierCalled) = some false :=
  moderateImageURLCur_similar_hit imgCurEnvHit imgStP2 "" "u" 2 ⟨"nsfw", 1, 2⟩
    (by decide) rfl (by decide) (by decide)

end Moderation
